import Mathlib

/-!
Verification development for the matching-and-merge core of the catalog
backend (matching_service.py, storage_service.py).

The Python services are shallowly embedded:
* JSON / BSON documents become the inductive `Value` type and association
  lists `Doc = List (String × Value)`; `dict.get` / `dict.__setitem__` and
  MongoDB `$set` become `dlookup` / `dset`.
* Python floats become exact fractions `Frac` (an integer numerator and
  natural denominator, compared by cross multiplication); theorem
  statements talk about the rational value `Frac.val`.
* MongoDB is modelled by `Store`: a list of documents plus a `failing`
  flag.  A query on a failing store returns an error, mirroring the
  exceptions raised by the real driver; `find(filter).limit(n)` becomes
  `List.filter` followed by `List.take n` in natural (insertion) order.
* `difflib.SequenceMatcher.ratio` (Python standard library, used by
  `_calculate_similarity`) is reimplemented below following the stdlib
  algorithm (`find_longest_match` dynamic programming, block splitting,
  `2 * matches / total`), with fuel for the block-splitting recursion.
* Unicode-specific behaviour of `str.lower` / `\s` and the decimal
  rendering of floats inside explanation strings are approximated (ASCII
  case folding; numbers render as ""); no claim depends on them.
-/

set_option maxHeartbeats 4000000
set_option maxRecDepth 4000

namespace Catalog

/-- Exact fraction standing in for a Python float: numerator and
(positive by convention) denominator, never normalised. -/
structure Frac where
  n : Int
  d : Nat
  deriving DecidableEq

/-- `a <= b` as the code compares two floats, by cross multiplication. -/
def Frac.ble (a b : Frac) : Bool :=
  decide (a.n * (b.d : Int) ≤ b.n * (a.d : Int))

/-- `a < b` as the code compares two floats, by cross multiplication. -/
def Frac.blt (a b : Frac) : Bool :=
  decide (a.n * (b.d : Int) < b.n * (a.d : Int))

/-- Python's `min` on two floats (returns the first on ties). -/
def Frac.fmin (a b : Frac) : Frac := if Frac.ble a b then a else b

/-- Float addition. -/
def Frac.add (a b : Frac) : Frac := ⟨a.n * b.d + b.n * a.d, a.d * b.d⟩

/-- The rational value denoted by a fraction. -/
def Frac.val (a : Frac) : ℚ := (a.n : ℚ) / (a.d : ℚ)

/-- A JSON/BSON value as stored in product documents. -/
inductive Value where
  | null
  | bool (b : Bool)
  | str (s : String)
  | num (q : Frac)
  | arr (vs : List Value)
  | obj (kvs : List (String × Value))

mutual

/-- Deep equality of values (Python `==` / MongoDB equality match). -/
def Value.beq : Value → Value → Bool
  | .null, .null => true
  | .bool a, .bool b => a == b
  | .str a, .str b => a == b
  | .num a, .num b => a == b
  | .arr a, .arr b => Value.beqList a b
  | .obj a, .obj b => Value.beqObj a b
  | _, _ => false

/-- Deep equality on lists of values. -/
def Value.beqList : List Value → List Value → Bool
  | [], [] => true
  | x :: xs, y :: ys => Value.beq x y && Value.beqList xs ys
  | _, _ => false

/-- Deep equality on key/value lists. -/
def Value.beqObj : List (String × Value) → List (String × Value) → Bool
  | [], [] => true
  | (k, v) :: xs, (k', v') :: ys => k == k' && Value.beq v v' && Value.beqObj xs ys
  | _, _ => false

end

instance : BEq Value := ⟨Value.beq⟩

/-- Optional values compared with Python/Mongo deep equality. -/
def obeq : Option Value → Option Value → Bool
  | none, none => true
  | some a, some b => Value.beq a b
  | _, _ => false

/-- A document / Python dict: association list keyed by field name. -/
abbrev Doc := List (String × Value)

/-- `d.get(k)`: the first binding of `k`, if any. -/
def dlookup : Doc → String → Option Value
  | [], _ => none
  | (k', v) :: t, k => if k' = k then some v else dlookup t k

/-- `d.get(k, default)`. -/
def dgetD (d : Doc) (k : String) (v₀ : Value) : Value := (dlookup d k).getD v₀

/-- `d[k] = v` (also MongoDB `$set` on one top-level key): replace the
first binding in place, or append a fresh one. -/
def dset : Doc → String → Value → Doc
  | [], k, v => [(k, v)]
  | (k', v') :: t, k, v => if k' = k then (k, v) :: t else (k', v') :: dset t k v

/-- Python truthiness of a value (`if value:`). -/
def pyTruthy : Value → Bool
  | .null => false
  | .bool b => b
  | .str s => !s.data.isEmpty
  | .num q => !(q.n == 0)
  | .arr l => !l.isEmpty
  | .obj l => !l.isEmpty

/-- Python `a or b`. -/
def pyOr (a b : Value) : Value := if pyTruthy a then a else b

/-- `str(value)` as needed by the embedding: identifiers and explanation
strings.  Rendering of numbers/containers is not modelled (no claim
depends on it). -/
def pyValueStr : Value → String
  | .str s => s
  | .null => "None"
  | .bool b => if b then "True" else "False"
  | .num _ => ""
  | .arr _ => ""
  | .obj _ => ""

/-- Characters treated as whitespace by `str.strip` / `\s` (ASCII). -/
def isSpaceChar (c : Char) : Bool :=
  c == ' ' || c == '\t' || c == '\n' || c == '\r' || c == '\x0b' || c == '\x0c'

/-- ASCII lower-casing of one character (`str.lower`). -/
def lowerChar (c : Char) : Char :=
  if 'A' ≤ c ∧ c ≤ 'Z' then Char.ofNat (c.toNat + 32) else c

/-- ASCII lower-casing of a string. -/
def lowerStr (s : String) : String := String.mk (s.data.map lowerChar)

/-- A string is null-like blank: `not value.strip()`. -/
def blankStr (s : String) : Bool := s.data.all isSpaceChar

/-- Maximal runs of characters satisfying `p` (used for `str.split()` and
`re.findall(r'[A-Za-z0-9]+', ...)`). -/
def runsAux (p : Char → Bool) : List Char → List Char → List String
  | [], acc => if acc.isEmpty then [] else [String.mk acc.reverse]
  | c :: t, acc =>
    if p c then runsAux p t (c :: acc)
    else if acc.isEmpty then runsAux p t []
    else String.mk acc.reverse :: runsAux p t []

/-- Maximal runs of characters of `s` satisfying `p`. -/
def runsOf (p : Char → Bool) (s : String) : List String := runsAux p s.data []

/-- The words of `_normalize(text)`: lowercase and split on whitespace. -/
def normWords (s : String) : List String :=
  runsOf (fun c => !isSpaceChar c) (lowerStr s)

/-- Joining words with single spaces. -/
def joinSpace : List String → String
  | [] => ""
  | [w] => w
  | w :: ws => w ++ " " ++ joinSpace ws

/-- `_normalize(text)` on a string: lowercase, strip, collapse runs of
whitespace to single spaces. -/
def normStr (s : String) : String := joinSpace (normWords s)

/-- `_normalize(text)` on a raw value: `if not text: return ""`, then the
string normalisation.  (A truthy non-string makes the real code raise
`AttributeError`; such inputs are outside the model.) -/
def normalizeValue : Value → String
  | .str s => if s.data.isEmpty then "" else normStr s
  | _ => ""

/-- Substring test on character lists. -/
def infixAux (n : List Char) : List Char → Bool
  | [] => n.isEmpty
  | c :: t => List.isPrefixOf n (c :: t) || infixAux n t

/-- `needle in hay` on strings. -/
def strContains (hay needle : String) : Bool := infixAux needle.data hay.data

/-- `s[:k]`. -/
def strTake (s : String) (k : Nat) : String := String.mk (s.data.take k)

/-- Alphanumeric runs, `re.findall(r'[A-Za-z0-9]+', code)`. -/
def isAlnumChar (c : Char) : Bool :=
  ('A' ≤ c && c ≤ 'Z') || ('a' ≤ c && c ≤ 'z') || ('0' ≤ c && c ≤ '9')

/-- `re.findall(r'[A-Za-z0-9]+', code)`. -/
def alnumRuns (s : String) : List String := runsOf isAlnumChar s

end Catalog

namespace Catalog

/-- `difflib`: the index list `b2j[c]` (positions of `c` in `b`, ascending),
with the `autojunk` removal of popular elements for `len(b) >= 200`. -/
def b2jIdx (b : List Char) (c : Char) : List Nat :=
  let idxs := (List.range b.length).filter (fun j => b.get? j == some c)
  if 200 ≤ b.length ∧ b.length / 100 + 1 < idxs.length then [] else idxs

/-- Lookup in the `j2len` map of `find_longest_match` (default 0). -/
def jget (l : List (Nat × Nat)) (j : Nat) : Nat :=
  match l.find? (fun p => p.1 == j) with
  | some p => p.2
  | none => 0

/-- Inner loop of `find_longest_match`: one row `i`, walking the matching
`j` positions, building `newj2len` and updating the best block. -/
def flmInner (j2old : List (Nat × Nat)) (i : Nat) :
    List Nat → List (Nat × Nat) → Nat × Nat × Nat → List (Nat × Nat) × (Nat × Nat × Nat)
  | [], jnew, best => (jnew, best)
  | j :: js, jnew, best =>
    let k := (if j = 0 then 0 else jget j2old (j - 1)) + 1
    let best' := if best.2.2 < k then (i + 1 - k, j + 1 - k, k) else best
    flmInner j2old i js ((j, k) :: jnew) best'

/-- Character equality through optional indexing. -/
def charEqAt (a b : List Char) (i j : Nat) : Bool :=
  match a.get? i, b.get? j with
  | some x, some y => x == y
  | _, _ => false

/-- Outer loop of `find_longest_match` over the rows `alo..ahi-1`. -/
def flmOuter (a b : List Char) (blo bhi : Nat) :
    List Nat → List (Nat × Nat) → Nat × Nat × Nat → Nat × Nat × Nat
  | [], _, best => best
  | i :: is, j2len, best =>
    let c := (a.get? i).getD (Char.ofNat 0)
    let js := (b2jIdx b c).filter (fun j => decide (blo ≤ j) && decide (j < bhi))
    let r := flmInner j2len i js [] best
    flmOuter a b blo bhi is r.1 r.2

/-- Backward extension of the best block (the junk set is empty since
`isjunk is None`, so the extension is unconditional on junk). -/
def extendBack (a b : List Char) (alo blo : Nat) :
    Nat → Nat × Nat × Nat → Nat × Nat × Nat
  | 0, best => best
  | fuel + 1, (bi, bj, bs) =>
    if alo < bi ∧ blo < bj ∧ charEqAt a b (bi - 1) (bj - 1) then
      extendBack a b alo blo fuel (bi - 1, bj - 1, bs + 1)
    else (bi, bj, bs)

/-- Forward extension of the best block. -/
def extendFwd (a b : List Char) (ahi bhi : Nat) :
    Nat → Nat × Nat × Nat → Nat × Nat × Nat
  | 0, best => best
  | fuel + 1, (bi, bj, bs) =>
    if bi + bs < ahi ∧ bj + bs < bhi ∧ charEqAt a b (bi + bs) (bj + bs) then
      extendFwd a b ahi bhi fuel (bi, bj, bs + 1)
    else (bi, bj, bs)

/-- `SequenceMatcher.find_longest_match` on `a[alo:ahi]` / `b[blo:bhi]`. -/
def findLongestMatch (a b : List Char) (alo ahi blo bhi : Nat) : Nat × Nat × Nat :=
  let best := flmOuter a b blo bhi (List.range' alo (ahi - alo)) [] (alo, blo, 0)
  extendFwd a b ahi bhi (b.length + 1) (extendBack a b alo blo (a.length + 1) best)

/-- Total number of matched characters over all matching blocks
(`get_matching_blocks` recursion; only the sum is needed for `ratio`).
The fuel dominates the number of interval splits. -/
def blocksTotal (a b : List Char) : Nat → List (Nat × Nat × Nat × Nat) → Nat
  | 0, _ => 0
  | _, [] => 0
  | fuel + 1, (alo, ahi, blo, bhi) :: queue =>
    let r := findLongestMatch a b alo ahi blo bhi
    let i := r.1
    let j := r.2.1
    let k := r.2.2
    if k == 0 then blocksTotal a b fuel queue
    else
      let q1 := if alo < i ∧ blo < j then [(alo, i, blo, j)] else []
      let q2 := if i + k < ahi ∧ j + k < bhi then [(i + k, ahi, j + k, bhi)] else []
      k + blocksTotal a b fuel (q1 ++ q2 ++ queue)

/-- `SequenceMatcher(None, s1, s2).ratio() = 2 * M / T` (and 1.0 when both
strings are empty). -/
def ratioOf (s1 s2 : String) : Frac :=
  let a := s1.data
  let b := s2.data
  let total := a.length + b.length
  if total == 0 then ⟨1, 1⟩
  else ⟨2 * (blocksTotal a b (total + 2) [(0, a.length, 0, b.length)]), total⟩

/-- `MatchingService._calculate_similarity`: 0.0 when either input is
falsy, else the `SequenceMatcher` ratio of the normalised strings. -/
def calculate_similarity (v1 v2 : Value) : Frac :=
  if !pyTruthy v1 || !pyTruthy v2 then ⟨0, 1⟩
  else ratioOf (normalizeValue v1) (normalizeValue v2)


end Catalog

namespace Catalog

/-- The `str(product['_id'])` identifier of a document (`product['_id']`
is modelled as `.get`, with `str(None) = "None"` for a missing id;
documents of interest always carry a string id). -/
def docIdStr (d : Doc) : String := pyValueStr ((dlookup d "_id").getD .null)

/-- The fields cleaned from the literal string `"null"` by
`StorageService.serialize_product`. -/
def null_string_fields : List String :=
  ["length", "width", "height", "weight", "lst_price",
   "default_code", "barcode", "Code_EAN", "name", "categ_id",
   "country_of_origin", "constructeur", "refConstructeur",
   "description_courte", "description_ecommerce", "features_description",
   "hs_code", "fiche_constructeur_nom", "fiche_technique_nom"]

/-- List-valued fields and their defaults in `serialize_product`. -/
def list_fields_defaults : List (String × Value) :=
  [("images", .arr []), ("product_template_image_ids", .arr []),
   ("sources", .arr []), ("taxes_id", .arr [.str "TVA 20%"]),
   ("merged_from", .arr [])]

/-- Boolean fields and their defaults in `serialize_product`. -/
def boolean_defaults : List (String × Bool) :=
  [("active", true), ("is_published", false),
   ("contient_du_lithium", false), ("is_master_record", false)]

/-- Is a field missing or `None`? (`field not in product or product[field] is None`). -/
def missingOrNull (d : Doc) (k : String) : Bool :=
  match dlookup d k with
  | none => true
  | some .null => true
  | some _ => false

/-- Default `extraction_metadata` object built by `serialize_product`. -/
def defaultExtractionMetadata (d : Doc) : Value :=
  .obj [("extraction_date", (dlookup d "created_at").getD .null),
        ("status", .str "raw"),
        ("field_confidence_scores", .obj []),
        ("manual_edits", .arr []),
        ("errors", .arr [])]

/-- `serialize_product` step: ensure `manual_edits` / `errors` exist inside
an `extraction_metadata` object (non-object metadata is left alone; the
real code would fail on it and no claim exercises that corner). -/
def fixExtractionMetadata (d : Doc) : Doc :=
  if missingOrNull d "extraction_metadata" then
    dset d "extraction_metadata" (defaultExtractionMetadata d)
  else
    match dlookup d "extraction_metadata" with
    | some (.obj em) =>
      let em := if (dlookup em "manual_edits").isNone then dset em "manual_edits" (.arr []) else em
      let em := if (dlookup em "errors").isNone then dset em "errors" (.arr []) else em
      dset d "extraction_metadata" (.obj em)
    | _ => d

/-- `StorageService.serialize_product`: stringify `_id`, clean `"null"`
strings, install list/object/boolean/string defaults. -/
def serialize_product (p : Doc) : Doc :=
  if p.isEmpty then p
  else
    let d := match dlookup p "_id" with
      | some v => dset p "_id" (.str (pyValueStr v))
      | none => p
    let d := null_string_fields.foldl
      (fun d f => if obeq (dlookup d f) (some (.str "null")) then dset d f .null else d) d
    let d := list_fields_defaults.foldl
      (fun d fv => if missingOrNull d fv.1 then dset d fv.1 fv.2 else d) d
    let d := fixExtractionMetadata d
    let d := boolean_defaults.foldl
      (fun d fb => if missingOrNull d fb.1 then dset d fb.1 (.bool fb.2) else d) d
    let d := if missingOrNull d "type" then dset d "type" (.str "product") else d
    d

/-- The document store: the `products` collection in natural order, plus a
flag making every query raise (driver/connectivity failure). -/
structure Store where
  docs : List Doc
  failing : Bool

/-- `collection.find(filter).limit(n)` followed by `to_list`: either the
(ordered) matching documents capped at `n`, or the driver's exception. -/
def storeFind (st : Store) (p : Doc → Bool) (lim : Nat) : Except Unit (List Doc) :=
  if st.failing then .error () else .ok ((st.docs.filter p).take lim)

/-- `MatchingService._find_by_barcode`: exact barcode query, limit 5,
serialized; any exception is caught and yields `[]`. -/
def find_by_barcode (st : Store) (barcode : Value) : List Doc :=
  match storeFind st (fun d => obeq (dlookup d "barcode") (some barcode)) 5 with
  | .error _ => []
  | .ok ps => ps.map serialize_product

/-- The `$or` filter of `_find_by_code_ean`. -/
def eanFilter (code_ean : Value) (d : Doc) : Bool :=
  obeq (dlookup d "code_ean") (some code_ean) ||
  obeq (dlookup d "Code_EAN") (some code_ean) ||
  obeq (dlookup d "barcode") (some code_ean)

/-- `MatchingService._find_by_code_ean`: `$or` over `code_ean`,
`Code_EAN` and `barcode`, limit 5, serialized; exceptions yield `[]`. -/
def find_by_code_ean (st : Store) (code_ean : Value) : List Doc :=
  match storeFind st (eanFilter code_ean) 5 with
  | .error _ => []
  | .ok ps => ps.map serialize_product

/-- `MatchingService._find_by_default_code`: exact code query, limit 5. -/
def find_by_default_code (st : Store) (default_code : Value) : List Doc :=
  match storeFind st (fun d => obeq (dlookup d "default_code") (some default_code)) 5 with
  | .error _ => []
  | .ok ps => ps.map serialize_product

/-- `MatchingService._find_by_manufacturer_ref`: the `$or` of
`{ref, constructeur}` and `{ref}` is equivalent to the plain
`ref_constructeur` equality (the second disjunct subsumes the first, and
`$or` returns each matching document once in natural order); limit 10. -/
def find_by_manufacturer_ref (st : Store) (ref_constructeur : Value) (_constructeur : Value) :
    List Doc :=
  match storeFind st (fun d => obeq (dlookup d "ref_constructeur") (some ref_constructeur)) 10 with
  | .error _ => []
  | .ok ps => ps.map serialize_product

/-- Significant words of the fuzzy-name search: words of the normalised
name longer than 3 characters, at most 5 of them. -/
def sigWords (s : String) : List String :=
  ((normWords s).filter (fun w => 3 < w.length)).take 5

/-- The `$regex ... $options i` filter of `_find_by_fuzzy_name`: the
document's `name` is a string containing one of the (lowercase) words,
case-insensitively.  A non-string `name` never matches a regex filter. -/
def nameRegexMatch (words : List String) (d : Doc) : Bool :=
  match dlookup d "name" with
  | some (.str s) => words.any (fun w => strContains (lowerStr s) w)
  | _ => false

/-- The scoring loop of `_find_by_fuzzy_name`: skip excluded ids, compute
the similarity to the query name, keep pairs reaching `min_similarity`. -/
def fuzzyScored (s : String) (excl : List String) (minSim : Frac) :
    List Doc → List (Doc × Frac)
  | [] => []
  | p :: rest =>
    if docIdStr p ∈ excl then fuzzyScored s excl minSim rest
    else
      let sim := calculate_similarity (.str s) (dgetD p "name" (.str ""))
      if Frac.ble minSim sim then (p, sim) :: fuzzyScored s excl minSim rest
      else fuzzyScored s excl minSim rest

/-- Stable descending insertion by a fractional key (Python's stable
`list.sort(key=..., reverse=True)` is the unique stable descending
sort, which insertion sort computes). -/
def insertDescBy (key : α → Frac) (x : α) : List α → List α
  | [] => [x]
  | y :: ys => if Frac.blt (key x) (key y) then y :: insertDescBy key x ys else x :: y :: ys

/-- Stable descending sort by a fractional key. -/
def sortDescBy (key : α → Frac) : List α → List α
  | [] => []
  | x :: xs => insertDescBy key x (sortDescBy key xs)

/-- `MatchingService._find_by_fuzzy_name`: build the regex from the
significant words, fetch up to 50 candidates, score each against the
query name, keep similarity ≥ 0.70, sort by similarity descending and
return the first 10.  The source serialises inside the loop; since the
sort key is the similarity alone, serialising after sort/take is the
same list.  Any exception (including a non-string name) yields `[]`. -/
def find_by_fuzzy_name (st : Store) (name : Value) (excl : List String) :
    List (Doc × Frac) :=
  match name with
  | .str s =>
    let words := sigWords (normStr s)
    if words.isEmpty then []
    else
      match storeFind st (nameRegexMatch words) 50 with
      | .error _ => []
      | .ok prods =>
        ((sortDescBy (fun pr => pr.2) (fuzzyScored s excl ⟨7, 10⟩ prods)).take 10).map
          (fun pr => (serialize_product pr.1, pr.2))
  | _ => []

/-- The `$regex` filter of `_find_by_partial_code` (case-insensitive
substring of any significant alphanumeric part). -/
def codeRegexMatch (parts : List String) (d : Doc) : Bool :=
  match dlookup d "default_code" with
  | some (.str s) => parts.any (fun w => strContains (lowerStr s) (lowerStr w))
  | _ => false

/-- The result loop of `_find_by_partial_code`: skip excluded ids and
exact code matches, serialize the rest. -/
def partCodeLoop (default_code : Value) (excl : List String) : List Doc → List Doc
  | [] => []
  | p :: rest =>
    if docIdStr p ∈ excl then partCodeLoop default_code excl rest
    else if obeq (dlookup p "default_code") (some default_code) then
      partCodeLoop default_code excl rest
    else serialize_product p :: partCodeLoop default_code excl rest

/-- `MatchingService._find_by_partial_code`: split the query code into
alphanumeric parts of length ≥ 3, fetch up to 20 candidates whose code
contains one of them, drop seen/exact ones, return the first 5.  Any
exception (including a non-string code) yields `[]`. -/
def find_by_partcode (st : Store) (default_code : Value) (excl : List String) : List Doc :=
  match default_code with
  | .str s =>
    let parts := (alnumRuns s).filter (fun w => 3 ≤ w.length)
    if parts.isEmpty then []
    else
      match storeFind st (codeRegexMatch parts) 20 with
      | .error _ => []
      | .ok prods => (partCodeLoop default_code excl prods).take 5
  | _ => []

end Catalog

namespace Catalog

/-- `MatchResult` dataclass of matching_service.py. -/
structure MatchResult where
  product_id : String
  product_name : Value
  default_code : Value
  barcode : Value
  constructeur : Value
  score : Frac
  match_type : String
  match_details : String

/-- `MatchingService.MATCH_SCORES`. -/
def MATCH_SCORES (k : String) : Frac :=
  if k = "exact_barcode" then ⟨1, 1⟩
  else if k = "exact_ean" then ⟨1, 1⟩
  else if k = "exact_code" then ⟨95, 100⟩
  else if k = "manufacturer_ref" then ⟨85, 100⟩
  else if k = "fuzzy_name_high" then ⟨75, 100⟩
  else if k = "fuzzy_name_medium" then ⟨60, 100⟩
  else if k = "partial_code" then ⟨50, 100⟩
  else ⟨0, 1⟩

/-- The `MatchResult(...)` constructor common to all matchers: fields read
from the serialized candidate document. -/
def mkBase (p : Doc) (score : Frac) (mt : String) (det : String) : MatchResult :=
  ⟨docIdStr p, dgetD p "name" (.str ""), dgetD p "default_code" .null,
   dgetD p "barcode" .null, dgetD p "constructeur" .null, score, mt, det⟩

/-- Barcode-stage result. -/
def mkBarcode (barcode : Value) (p : Doc) : MatchResult :=
  mkBase p (MATCH_SCORES "exact_barcode") "exact_barcode"
    ("Barcode exact: " ++ pyValueStr barcode)

/-- EAN-stage result. -/
def mkEan (code_ean : Value) (p : Doc) : MatchResult :=
  mkBase p (MATCH_SCORES "exact_ean") "exact_ean"
    ("Code EAN exact: " ++ pyValueStr code_ean)

/-- Internal-code-stage result. -/
def mkCode (default_code : Value) (p : Doc) : MatchResult :=
  mkBase p (MATCH_SCORES "exact_code") "exact_code"
    ("Code exact: " ++ pyValueStr default_code)

/-- Manufacturer-reference-stage result, with the +0.10 boost (capped at
0.95) when both manufacturer names are truthy and normalise equally. -/
def mkRef (constructeur ref_constructeur : Value) (p : Doc) : MatchResult :=
  let base := MATCH_SCORES "manufacturer_ref"
  let score :=
    if pyTruthy constructeur && pyTruthy (dgetD p "constructeur" .null) &&
        (normalizeValue constructeur == normalizeValue (dgetD p "constructeur" .null)) then
      Frac.fmin (Frac.add base ⟨10, 100⟩) ⟨95, 100⟩
    else base
  mkBase p score "manufacturer_ref" ("Ref constructeur: " ++ pyValueStr ref_constructeur)

/-- Fuzzy-name-stage result: high bucket for similarity ≥ 0.90, else
medium (the candidate list is already filtered to ≥ 0.70). -/
def mkFuzzy (pr : Doc × Frac) : MatchResult :=
  if Frac.ble ⟨9, 10⟩ pr.2 then
    mkBase pr.1 (MATCH_SCORES "fuzzy_name_high") "fuzzy_name_high"
      ("Nom similaire: " ++ strTake (pyValueStr (dgetD pr.1 "name" (.str ""))) 50)
  else
    mkBase pr.1 (MATCH_SCORES "fuzzy_name_medium") "fuzzy_name_medium"
      ("Nom similaire: " ++ strTake (pyValueStr (dgetD pr.1 "name" (.str ""))) 50)

/-- Partial-code-stage result. -/
def mkPart (p : Doc) : MatchResult :=
  mkBase p (MATCH_SCORES "partial_code") "partial_code"
    ("Code partiel: " ++ pyValueStr (dgetD p "default_code" .null))

/-- One matcher loop of `find_matches`: walk the candidate list, skip ids
already in `seen_ids`, append the constructed result and record the id;
when `cap = some c` (stages 5 and 6), stop as soon as the match list
reaches `c` elements (`if len(matches) >= max_results: break`). -/
def addStage (mk : α → MatchResult) (gid : α → String) (cap : Option Nat) :
    List α → List MatchResult × List String → List MatchResult × List String
  | [], acc => acc
  | x :: xs, (ms, seen) =>
    if gid x ∈ seen then addStage mk gid cap xs (ms, seen)
    else
      let ms' := ms ++ [mk x]
      let seen' := seen ++ [gid x]
      match cap with
      | some c => if c ≤ ms'.length then (ms', seen') else addStage mk gid cap xs (ms', seen')
      | none => addStage mk gid cap xs (ms', seen')

/-- `odoo_product.get(k)` (missing keys read as `None`). -/
def qget (q : Doc) (k : String) : Value := dgetD q k .null

/-- Stage 1 of `find_matches`: exact barcode. -/
def stage1 (st : Store) (q : Doc) (acc : List MatchResult × List String) :
    List MatchResult × List String :=
  let barcode := qget q "barcode"
  if pyTruthy barcode then
    addStage (mkBarcode barcode) docIdStr none (find_by_barcode st barcode) acc
  else acc

/-- The query's EAN code: `odoo_product.get('Code_EAN') or odoo_product.get('code_ean')`. -/
def qCodeEan (q : Doc) : Value := pyOr (qget q "Code_EAN") (qget q "code_ean")

/-- Stage 2 of `find_matches`: exact EAN code (when truthy and different
from the barcode). -/
def stage2 (st : Store) (q : Doc) (acc : List MatchResult × List String) :
    List MatchResult × List String :=
  let code_ean := qCodeEan q
  if pyTruthy code_ean && !(code_ean == qget q "barcode") then
    addStage (mkEan code_ean) docIdStr none (find_by_code_ean st code_ean) acc
  else acc

/-- Stage 3 of `find_matches`: exact internal code. -/
def stage3 (st : Store) (q : Doc) (acc : List MatchResult × List String) :
    List MatchResult × List String :=
  let default_code := qget q "default_code"
  if pyTruthy default_code then
    addStage (mkCode default_code) docIdStr none (find_by_default_code st default_code) acc
  else acc

/-- The query's manufacturer reference:
`odoo_product.get('refConstructeur') or odoo_product.get('ref_constructeur')`. -/
def qRefConstructeur (q : Doc) : Value := pyOr (qget q "refConstructeur") (qget q "ref_constructeur")

/-- Stage 4 of `find_matches`: manufacturer reference. -/
def stage4 (st : Store) (q : Doc) (acc : List MatchResult × List String) :
    List MatchResult × List String :=
  let rc := qRefConstructeur q
  if pyTruthy rc then
    addStage (mkRef (qget q "constructeur") rc) docIdStr none
      (find_by_manufacturer_ref st rc (qget q "constructeur")) acc
  else acc

/-- Stage 5 of `find_matches`: fuzzy name, run only while the result list
is still under `max_results` and the query has a truthy name; stops once
`max_results` results are collected. -/
def stage5 (st : Store) (q : Doc) (max_results : Nat)
    (acc : List MatchResult × List String) : List MatchResult × List String :=
  let name := dgetD q "name" (.str "")
  if acc.1.length < max_results && pyTruthy name then
    addStage mkFuzzy (fun pr => docIdStr pr.1) (some max_results)
      (find_by_fuzzy_name st name acc.2) acc
  else acc

/-- Stage 6 of `find_matches`: partial code, run only when the query has a
truthy internal code and the result list is still under `max_results`. -/
def stage6 (st : Store) (q : Doc) (max_results : Nat)
    (acc : List MatchResult × List String) : List MatchResult × List String :=
  let default_code := qget q "default_code"
  if pyTruthy default_code && acc.1.length < max_results then
    addStage mkPart docIdStr (some max_results)
      (find_by_partcode st default_code acc.2) acc
  else acc

/-- The match list of `find_matches` before the final sort/truncation:
the six matcher stages run in priority order over a shared seen set. -/
def build_matches (st : Store) (q : Doc) (max_results : Nat) : List MatchResult :=
  (stage6 st q max_results
    (stage5 st q max_results
      (stage4 st q (stage3 st q (stage2 st q (stage1 st q ([], []))))))).1

/-- `MatchingService.find_matches`: stable sort by score descending, then
truncate to `max_results`. -/
def find_matches (st : Store) (q : Doc) (max_results : Nat) : List MatchResult :=
  (sortDescBy (fun m => m.score) (build_matches st q max_results)).take max_results

end Catalog

namespace Catalog

/-- Incoming value skipped by the merge:
`new_value is None or (isinstance(new_value, str) and not new_value.strip())`. -/
def isNullOrBlankV : Value → Bool
  | .null => true
  | .str s => blankStr s
  | _ => false

/-- Existing slot overwritable because null/blank/missing:
`existing_value is None or (isinstance(existing_value, str) and not existing_value.strip())`
(a missing key reads as `None` through `.get`). -/
def existingNullBlank : Option Value → Bool
  | none => true
  | some .null => true
  | some (.str s) => blankStr s
  | some _ => false

/-- `confidence_map.get(field, 0.5)`.  Non-numeric entries are outside the
model (the real code would fail comparing them) and also read as 0.5. -/
def confAt (m : Doc) (f : String) : Frac :=
  match dlookup m f with
  | some (.num q) => q
  | _ => ⟨1, 2⟩

/-- `product_data.get("confidence_scores", {})` as a key/value list. -/
def confMapOf (pd : Doc) : Doc :=
  match dlookup pd "confidence_scores" with
  | some (.obj m) => m
  | _ => []

/-- `existing.get("extraction_metadata", {}).get("field_confidence_scores", {})`. -/
def getScoresOf (d : Doc) : Doc :=
  match dlookup d "extraction_metadata" with
  | some (.obj em) =>
    match dlookup em "field_confidence_scores" with
    | some (.obj m) => m
    | _ => []
  | _ => []

/-- `existing.get("sources", [])`. -/
def getSourcesOf (d : Doc) : List Value :=
  match dlookup d "sources" with
  | some (.arr l) => l
  | _ => []

/-- The field-merge loop of `enrich_existing_product`: walk the incoming
items, skip `confidence_scores`/`_id` and null/blank values, and collect
the `updates` dict while mutating the stored confidence map. -/
def mergeLoop (existing conf : Doc) : Doc → Doc → Doc → Doc × Doc
  | [], updates, scores => (updates, scores)
  | (field, new_value) :: rest, updates, scores =>
    if field = "confidence_scores" ∨ field = "_id" then
      mergeLoop existing conf rest updates scores
    else if isNullOrBlankV new_value then
      mergeLoop existing conf rest updates scores
    else
      let new_confidence := confAt conf field
      let existing_confidence := confAt scores field
      if existingNullBlank (dlookup existing field) ||
          Frac.blt existing_confidence new_confidence then
        mergeLoop existing conf rest (dset updates field new_value)
          (dset scores field (.num new_confidence))
      else mergeLoop existing conf rest updates scores

/-- Apply a `$set` update dict to a document, key by key. -/
def applySets (d : Doc) : Doc → Doc
  | [] => d
  | (k, v) :: rest => applySets (dset d k v) rest

/-- `$set {"extraction_metadata.field_confidence_scores": scores}`:
rewrite the nested confidence map (creating the metadata object when
missing, as MongoDB does on a dotted path). -/
def setScores (d : Doc) (scores : Doc) : Doc :=
  let em := match dlookup d "extraction_metadata" with
    | some (.obj em) => em
    | _ => []
  dset d "extraction_metadata" (.obj (dset em "field_confidence_scores" (.obj scores)))

/-- The document written by `enrich_existing_product`'s single
`update_one`: merged field updates, then the rewritten confidence map,
concatenated sources and the fresh `updated_at` timestamp (`now`). -/
def merge_result (existing pd : Doc) (srcs : List Value) (now : Value) : Doc :=
  let r := mergeLoop existing (confMapOf pd) pd [] (getScoresOf existing)
  let d := applySets existing r.1
  let d := setScores d r.2
  let d := dset d "sources" (.arr (getSourcesOf existing ++ srcs))
  dset d "updated_at" now

/-- Failures of the merge path: `ValueError("No unique identifier ...")`
(the spec's ValidationError) and `ValueError("Existing product not
found")` (the spec's NotFound). -/
inductive MergeError where
  | validationError
  | notFound
  deriving DecidableEq

/-- A truthy lookup: the value of `k` when present and truthy. -/
def truthyLookup (pd : Doc) (k : String) : Option Value :=
  match dlookup pd k with
  | some v => if pyTruthy v then some v else none
  | none => none

/-- The identity lookup of `enrich_existing_product`:
`default_code`, else `barcode`, else `Code_EAN`, first truthy wins. -/
def identity_query (pd : Doc) : Option (String × Value) :=
  match truthyLookup pd "default_code" with
  | some v => some ("default_code", v)
  | none =>
    match truthyLookup pd "barcode" with
    | some v => some ("barcode", v)
    | none =>
      match truthyLookup pd "Code_EAN" with
      | some v => some ("Code_EAN", v)
      | none => none

/-- `update_one({"_id": idv}, ...)`: replace the first document carrying
the id. -/
def replaceById : List Doc → Option Value → Doc → List Doc
  | [], _, _ => []
  | d :: t, idv, nd => if obeq (dlookup d "_id") idv then nd :: t else d :: replaceById t idv nd

/-- `StorageService.enrich_existing_product`: resolve the identity, find
the existing document, merge and write.  Returns the store after the call
together with the outcome.  (The source re-reads the document after the
update; with unique ids the re-read is the merged document, which is what
is returned here.) -/
def enrich_existing_product (store : List Doc) (pd : Doc) (srcs : List Value) (now : Value) :
    List Doc × Except MergeError Doc :=
  match identity_query pd with
  | none => (store, .error .validationError)
  | some kv =>
    match store.find? (fun d => obeq (dlookup d kv.1) (some kv.2)) with
    | none => (store, .error .notFound)
    | some existing =>
      let merged := merge_result existing pd srcs now
      (replaceById store (dlookup existing "_id") merged, .ok merged)

/-- The `$match` stage of `get_duplicates_by_code`.  The source writes the
Python dict literal `{"$ne": None, "$exists": True, "$ne": ""}`, whose
duplicate `"$ne"` key collapses to `{"$exists": True, "$ne": ""}`: the
field must exist and differ from `""` — an explicit BSON `null`
`default_code` passes the filter. -/
def dup_match (d : Doc) : Bool :=
  (dlookup d "default_code").isSome && !obeq (dlookup d "default_code") (some (.str ""))

/-- The lightweight member projection `$push`-ed per group (absent paths
project to `none`, mirroring missing fields in aggregation expressions). -/
structure DupMember where
  id : String
  name : Option Value
  constructeur : Option Value
  barcode : Option Value
  created_at : Option Value
  status : Option Value
  source_type : Option Value
  image_count : Nat

/-- The grouping key `"$default_code"` of a (filtered) document. -/
def keyOf (d : Doc) : Value := (dlookup d "default_code").getD .null

/-- Member projection of the `$group` stage. -/
def projectMember (d : Doc) : DupMember :=
  ⟨pyValueStr ((dlookup d "_id").getD .null),
   dlookup d "name", dlookup d "constructeur", dlookup d "barcode",
   dlookup d "created_at",
   (match dlookup d "extraction_metadata" with
    | some (.obj em) => dlookup em "status"
    | _ => none),
   (match dlookup d "sources" with
    | some (.arr l) =>
      (l.filterMap (fun v => match v with | .obj o => dlookup o "source_type" | _ => none)).head?
    | _ => none),
   (match dlookup d "images" with
    | some (.arr l) => l.length
    | _ => 0)⟩

/-- One duplicate group: `{"default_code": ..., "count": ..., "products": ...}`. -/
structure DupGroup where
  default_code : Value
  count : Nat
  products : List DupMember

/-- The distinct grouping keys in first-occurrence order (the `$group`
stage emits groups in an unspecified order; first-occurrence order is the
model's choice and no claim depends on it). -/
def distinctKeysAux : List Doc → List Value → List Value
  | [], acc => acc.reverse
  | d :: t, acc =>
    if acc.any (fun k => Value.beq k (keyOf d)) then distinctKeysAux t acc
    else distinctKeysAux t (keyOf d :: acc)

/-- The `$group` stage over the filtered documents. -/
def dup_groups (ds : List Doc) : List DupGroup :=
  (distinctKeysAux ds []).map (fun k =>
    let members := ds.filter (fun d => Value.beq (keyOf d) k)
    ⟨k, members.length, members.map projectMember⟩)

/-- `StorageService.get_duplicates_by_code`: filter, group, keep groups of
at least `min_count`, sort by count descending, count the total, then
paginate with `$skip`/`$limit`. -/
def get_duplicates_by_code (store : List Doc) (skip limit min_count : Nat) :
    List DupGroup × Nat :=
  let filtered := store.filter dup_match
  let groups := (dup_groups filtered).filter (fun g => min_count ≤ g.count)
  let sorted := sortDescBy (fun g => ⟨(g.count : Int), 1⟩) groups
  let total := sorted.length
  ((sorted.drop skip).take limit, total)

end Catalog

namespace Catalog

theorem dlookup_dset (d : Doc) (k : String) (v : Value) (f : String) :
    dlookup (dset d k v) f = if k = f then some v else dlookup d f := by
  induction d with
  | nil => simp [dset, dlookup]
  | cons hd t ih =>
    obtain ⟨k', v'⟩ := hd
    by_cases hk : k' = k
    · subst hk
      by_cases hf : k' = f
      · subst hf
        simp [dset, dlookup]
      · simp [dset, dlookup, hf]
    · have hk' : ¬ (k = k') := fun h => hk h.symm
      by_cases hf : k' = f
      · subst hf
        simp [dset, hk, dlookup, hk']
      · simp [dset, hk, dlookup, hf, ih]

theorem dlookup_dset_self (d : Doc) (k : String) (v : Value) :
    dlookup (dset d k v) k = some v := by
  simp [dlookup_dset]

theorem dlookup_dset_ne (d : Doc) (k : String) (v : Value) (f : String) (h : k ≠ f) :
    dlookup (dset d k v) f = dlookup d f := by
  simp [dlookup_dset, h]

theorem mem_keys_iff_lookup (d : Doc) (f : String) :
    f ∈ d.map Prod.fst ↔ (dlookup d f).isSome := by
  induction d with
  | nil => simp [dlookup]
  | cons hd t ih =>
    obtain ⟨k, v⟩ := hd
    by_cases hf : k = f
    · subst hf
      simp [dlookup]
    · have hf' : ¬ (f = k) := fun h => hf h.symm
      simp [dlookup, hf, hf', ih]

theorem keys_nodup_dset (d : Doc) (k : String) (v : Value)
    (h : (d.map Prod.fst).Nodup) : ((dset d k v).map Prod.fst).Nodup := by
  induction d with
  | nil => simp [dset]
  | cons hd t ih =>
    obtain ⟨k', v'⟩ := hd
    simp only [List.map_cons, List.nodup_cons] at h
    by_cases hk : k' = k
    · subst hk
      have hred : dset ((k', v') :: t) k' v = (k', v) :: t := by simp [dset]
      rw [hred]
      simpa using h
    · have hred : dset ((k', v') :: t) k v = (k', v') :: dset t k v := by simp [dset, hk]
      rw [hred]
      simp only [List.map_cons, List.nodup_cons]
      refine ⟨?_, ih h.2⟩
      rw [mem_keys_iff_lookup, dlookup_dset, if_neg (fun hkk => hk hkk.symm),
        ← mem_keys_iff_lookup]
      exact h.1

theorem applySets_lookup_notin (d : Doc) (ups : Doc) (f : String)
    (h : f ∉ ups.map Prod.fst) : dlookup (applySets d ups) f = dlookup d f := by
  induction ups generalizing d with
  | nil => rfl
  | cons hd t ih =>
    obtain ⟨k, v⟩ := hd
    simp only [List.map_cons, List.mem_cons] at h
    push_neg at h
    simp only [applySets]
    rw [ih _ h.2, dlookup_dset_ne _ _ _ _ (fun hk => h.1 hk.symm)]

theorem applySets_lookup (d : Doc) (ups : Doc) (f : String)
    (h : (ups.map Prod.fst).Nodup) :
    dlookup (applySets d ups) f =
      match dlookup ups f with
      | some v => some v
      | none => dlookup d f := by
  induction ups generalizing d with
  | nil => rfl
  | cons hd t ih =>
    obtain ⟨k, v⟩ := hd
    simp only [List.map_cons, List.nodup_cons] at h
    have hred : applySets d ((k, v) :: t) = applySets (dset d k v) t := rfl
    by_cases hf : k = f
    · subst hf
      have hl : dlookup ((k, v) :: t) k = some v := by simp [dlookup]
      rw [hred, applySets_lookup_notin _ _ _ h.1, dlookup_dset_self, hl]
    · have hl : dlookup ((k, v) :: t) f = dlookup t f := by simp [dlookup, hf]
      rw [hred, ih _ h.2, hl]
      rcases hdl : dlookup t f with _ | w
      · simp [dlookup_dset_ne _ _ _ _ hf]
      · simp

theorem applySets_isSome (d : Doc) (ups : Doc) (f : String)
    (h : (dlookup d f).isSome) : (dlookup (applySets d ups) f).isSome := by
  induction ups generalizing d with
  | nil => exact h
  | cons hd t ih =>
    obtain ⟨k, v⟩ := hd
    simp only [applySets]
    refine ih _ ?_
    rw [dlookup_dset]
    by_cases hf : k = f <;> simp [hf, h]

end Catalog

namespace Catalog

theorem dset_isSome (d : Doc) (k : String) (v : Value) (f : String)
    (h : (dlookup d f).isSome) : (dlookup (dset d k v) f).isSome := by
  rw [dlookup_dset]
  by_cases hf : k = f <;> simp [hf, h]

theorem mergeLoop_notin (ex conf : Doc) (items : Doc) (f : String)
    (h : ∀ v, (f, v) ∈ items → f = "confidence_scores" ∨ f = "_id" ∨ isNullOrBlankV v = true) :
    ∀ u s, dlookup (mergeLoop ex conf items u s).1 f = dlookup u f ∧
      dlookup (mergeLoop ex conf items u s).2 f = dlookup s f := by
  induction items with
  | nil => exact fun u s => ⟨rfl, rfl⟩
  | cons hd rest ih =>
    obtain ⟨g, w⟩ := hd
    have hrest : ∀ v, (f, v) ∈ rest →
        f = "confidence_scores" ∨ f = "_id" ∨ isNullOrBlankV v = true :=
      fun v hv => h v (List.mem_cons_of_mem _ hv)
    intro u s
    by_cases hsp : g = "confidence_scores" ∨ g = "_id"
    · simp only [mergeLoop, if_pos hsp]
      exact ih hrest u s
    · by_cases hbl : isNullOrBlankV w = true
      · simp only [mergeLoop]
        rw [if_neg hsp, if_pos hbl]
        exact ih hrest u s
      · have hgf : g ≠ f := by
          rintro rfl
          rcases h w (List.mem_cons_self _ _) with h1 | h2 | h3
          · exact hsp (Or.inl h1)
          · exact hsp (Or.inr h2)
          · exact hbl h3
        simp only [mergeLoop]
        rw [if_neg hsp, if_neg hbl]
        by_cases hup : (existingNullBlank (dlookup ex g) ||
            Frac.blt (confAt s g) (confAt conf g)) = true
        · rw [if_pos hup]
          refine ⟨?_, ?_⟩
          · rw [(ih hrest _ _).1, dlookup_dset_ne _ _ _ _ hgf]
          · rw [(ih hrest _ _).2, dlookup_dset_ne _ _ _ _ hgf]
        · rw [if_neg hup]
          exact ih hrest u s

theorem mergeLoop_mem (ex conf : Doc) (items : Doc) (f : String) (v : Value)
    (hnd : (items.map Prod.fst).Nodup)
    (hmem : (f, v) ∈ items)
    (hsp : ¬(f = "confidence_scores" ∨ f = "_id"))
    (hbl : isNullOrBlankV v = false) :
    ∀ u s,
    (((existingNullBlank (dlookup ex f) || Frac.blt (confAt s f) (confAt conf f)) = true) →
       dlookup (mergeLoop ex conf items u s).1 f = some v ∧
       dlookup (mergeLoop ex conf items u s).2 f = some (.num (confAt conf f))) ∧
    (((existingNullBlank (dlookup ex f) || Frac.blt (confAt s f) (confAt conf f)) = false) →
       dlookup (mergeLoop ex conf items u s).1 f = dlookup u f ∧
       dlookup (mergeLoop ex conf items u s).2 f = dlookup s f) := by
  induction items with
  | nil => cases hmem
  | cons hd rest ih =>
    obtain ⟨g, w⟩ := hd
    simp only [List.map_cons, List.nodup_cons] at hnd
    intro u s
    rcases List.mem_cons.1 hmem with hhd | htl
    · have hg : f = g := congrArg Prod.fst hhd
      have hw : v = w := congrArg Prod.snd hhd
      subst hg
      subst hw
      have hnone : ∀ v', (f, v') ∈ rest →
          f = "confidence_scores" ∨ f = "_id" ∨ isNullOrBlankV v' = true := by
        intro v' hv'
        exact absurd (List.mem_map_of_mem Prod.fst hv') hnd.1
      simp only [mergeLoop]
      rw [if_neg hsp, if_neg (by rw [hbl]; exact Bool.false_ne_true)]
      by_cases hc : (existingNullBlank (dlookup ex f) ||
          Frac.blt (confAt s f) (confAt conf f)) = true
      · rw [if_pos hc]
        refine ⟨fun _ => ?_, fun hcf => absurd hc (by rw [hcf]; exact Bool.false_ne_true)⟩
        have hres := mergeLoop_notin ex conf rest f hnone
          (dset u f v) (dset s f (.num (confAt conf f)))
        rw [hres.1, hres.2, dlookup_dset_self, dlookup_dset_self]
        exact ⟨rfl, rfl⟩
      · rw [if_neg hc]
        have hres := mergeLoop_notin ex conf rest f hnone u s
        refine ⟨fun hct => absurd hct hc, fun _ => ⟨hres.1, hres.2⟩⟩
    · have hgf : g ≠ f := by
        rintro rfl
        exact hnd.1 (List.mem_map_of_mem Prod.fst htl)
      have ih' := ih hnd.2 htl
      simp only [mergeLoop]
      by_cases hsp' : g = "confidence_scores" ∨ g = "_id"
      · rw [if_pos hsp']
        exact ih' u s
      · rw [if_neg hsp']
        by_cases hbl' : isNullOrBlankV w = true
        · rw [if_pos hbl']
          exact ih' u s
        · rw [if_neg hbl']
          by_cases hup : (existingNullBlank (dlookup ex g) ||
              Frac.blt (confAt s g) (confAt conf g)) = true
          · rw [if_pos hup]
            have hkey : confAt (dset s g (.num (confAt conf g))) f = confAt s f := by
              simp only [confAt]
              rw [dlookup_dset_ne _ _ _ _ hgf]
            have hmain := ih' (dset u g w) (dset s g (.num (confAt conf g)))
            rw [hkey] at hmain
            refine ⟨hmain.1, fun hcf => ?_⟩
            have h2 := hmain.2 hcf
            rw [dlookup_dset_ne _ _ _ _ hgf, dlookup_dset_ne _ _ _ _ hgf] at h2
            exact h2
          · rw [if_neg hup]
            exact ih' u s

theorem mergeLoop_updates_source (ex conf : Doc) (items : Doc) (f : String) :
    ∀ u s w, dlookup (mergeLoop ex conf items u s).1 f = some w →
      dlookup u f = some w ∨ ((f, w) ∈ items ∧ isNullOrBlankV w = false) := by
  induction items with
  | nil => exact fun u s w h => Or.inl h
  | cons hd rest ih =>
    obtain ⟨g, w'⟩ := hd
    intro u s w hw
    simp only [mergeLoop] at hw
    by_cases hsp : g = "confidence_scores" ∨ g = "_id"
    · rw [if_pos hsp] at hw
      rcases ih u s w hw with h | h
      · exact Or.inl h
      · exact Or.inr ⟨List.mem_cons_of_mem _ h.1, h.2⟩
    · rw [if_neg hsp] at hw
      by_cases hbl : isNullOrBlankV w' = true
      · rw [if_pos hbl] at hw
        rcases ih u s w hw with h | h
        · exact Or.inl h
        · exact Or.inr ⟨List.mem_cons_of_mem _ h.1, h.2⟩
      · rw [if_neg hbl] at hw
        by_cases hup : (existingNullBlank (dlookup ex g) ||
            Frac.blt (confAt s g) (confAt conf g)) = true
        · rw [if_pos hup] at hw
          rcases ih _ _ w hw with h | h
          · rw [dlookup_dset] at h
            by_cases hgf : g = f
            · subst hgf
              rw [if_pos rfl] at h
              have hww : w' = w := Option.some.inj h
              subst hww
              refine Or.inr ⟨List.mem_cons_self _ _, ?_⟩
              revert hbl
              cases isNullOrBlankV w' <;> simp
            · rw [if_neg hgf] at h
              exact Or.inl h
          · exact Or.inr ⟨List.mem_cons_of_mem _ h.1, h.2⟩
        · rw [if_neg hup] at hw
          rcases ih u s w hw with h | h
          · exact Or.inl h
          · exact Or.inr ⟨List.mem_cons_of_mem _ h.1, h.2⟩

theorem mergeLoop_updates_nodup (ex conf : Doc) (items : Doc) :
    ∀ u s, (u.map Prod.fst).Nodup →
      ((mergeLoop ex conf items u s).1.map Prod.fst).Nodup := by
  induction items with
  | nil => exact fun u s h => h
  | cons hd rest ih =>
    obtain ⟨g, w⟩ := hd
    intro u s h
    simp only [mergeLoop]
    by_cases hsp : g = "confidence_scores" ∨ g = "_id"
    · rw [if_pos hsp]
      exact ih u s h
    · rw [if_neg hsp]
      by_cases hbl : isNullOrBlankV w = true
      · rw [if_pos hbl]
        exact ih u s h
      · rw [if_neg hbl]
        by_cases hup : (existingNullBlank (dlookup ex g) ||
            Frac.blt (confAt s g) (confAt conf g)) = true
        · rw [if_pos hup]
          exact ih _ _ (keys_nodup_dset _ _ _ h)
        · rw [if_neg hup]
          exact ih u s h

end Catalog

namespace Catalog

theorem merge_result_lookup (ex pd : Doc) (srcs : List Value) (now : Value) (f : String)
    (h1 : f ≠ "sources") (h2 : f ≠ "updated_at") (h3 : f ≠ "extraction_metadata") :
    dlookup (merge_result ex pd srcs now) f =
      dlookup (applySets ex (mergeLoop ex (confMapOf pd) pd [] (getScoresOf ex)).1) f := by
  simp only [merge_result, setScores]
  rw [dlookup_dset_ne _ _ _ _ (Ne.symm h2), dlookup_dset_ne _ _ _ _ (Ne.symm h1),
    dlookup_dset_ne _ _ _ _ (Ne.symm h3)]

theorem getScoresOf_merge_result (ex pd : Doc) (srcs : List Value) (now : Value) :
    getScoresOf (merge_result ex pd srcs now) =
      (mergeLoop ex (confMapOf pd) pd [] (getScoresOf ex)).2 := by
  simp only [merge_result, setScores, getScoresOf]
  rw [dlookup_dset_ne _ _ _ _ (by decide : ("updated_at" : String) ≠ "extraction_metadata"),
    dlookup_dset_ne _ _ _ _ (by decide : ("sources" : String) ≠ "extraction_metadata"),
    dlookup_dset_self]
  simp [dlookup_dset_self]

theorem merge_result_isSome (ex pd : Doc) (srcs : List Value) (now : Value) (f : String)
    (h : (dlookup ex f).isSome) :
    (dlookup (merge_result ex pd srcs now) f).isSome := by
  simp only [merge_result, setScores]
  exact dset_isSome _ _ _ _ (dset_isSome _ _ _ _ (dset_isSome _ _ _ _ (applySets_isSome _ _ _ h)))

theorem Frac.blt_val (a b : Frac) (ha : 0 < a.d) (hb : 0 < b.d) :
    (Frac.blt a b = true ↔ a.val < b.val) := by
  have ha' : (0 : ℚ) < (a.d : ℚ) := by exact_mod_cast ha
  have hb' : (0 : ℚ) < (b.d : ℚ) := by exact_mod_cast hb
  rw [Frac.blt, decide_eq_true_eq, Frac.val, Frac.val, div_lt_div_iff₀ ha' hb']
  constructor
  · intro h
    exact_mod_cast h
  · intro h
    exact_mod_cast h

/-- C1: the confidence-weighted overwrite rule of
`enrich_existing_product`, amended to range over ordinary data fields:
the reserved keys `confidence_scores` and `_id` are skipped by the loop,
and `sources`, `updated_at` and `extraction_metadata` are rewritten
unconditionally by the final update (see `C1_counterexample`).  For any
other incoming field `f` with a non-null, non-blank value: the merged
document carries the incoming value iff the existing slot is
null/blank/missing or the incoming confidence exceeds the existing one
(both defaulting to 0.5 when absent, via `confAt`), and exactly then the
stored confidence for `f` becomes the incoming confidence; otherwise both
the field and its stored confidence are unchanged.  The first conjunct
identifies the code's float comparison with the strict rational order. -/
theorem C1_merge_rule (existing pd : Doc) (srcs : List Value) (now : Value)
    (f : String) (v : Value)
    (hnd : (pd.map Prod.fst).Nodup)
    (hmem : (f, v) ∈ pd)
    (hbl : isNullOrBlankV v = false)
    (h1 : f ≠ "confidence_scores") (h2 : f ≠ "_id")
    (h3 : f ≠ "sources") (h4 : f ≠ "updated_at") (h5 : f ≠ "extraction_metadata")
    (hde : 0 < (confAt (getScoresOf existing) f).d)
    (hdn : 0 < (confAt (confMapOf pd) f).d) :
    (Frac.blt (confAt (getScoresOf existing) f) (confAt (confMapOf pd) f) = true ↔
       (confAt (getScoresOf existing) f).val < (confAt (confMapOf pd) f).val) ∧
    (((existingNullBlank (dlookup existing f) ||
        Frac.blt (confAt (getScoresOf existing) f) (confAt (confMapOf pd) f)) = true) →
       dlookup (merge_result existing pd srcs now) f = some v ∧
       dlookup (getScoresOf (merge_result existing pd srcs now)) f =
         some (.num (confAt (confMapOf pd) f))) ∧
    (((existingNullBlank (dlookup existing f) ||
        Frac.blt (confAt (getScoresOf existing) f) (confAt (confMapOf pd) f)) = false) →
       dlookup (merge_result existing pd srcs now) f = dlookup existing f ∧
       dlookup (getScoresOf (merge_result existing pd srcs now)) f =
         dlookup (getScoresOf existing) f) := by
  have hsp : ¬(f = "confidence_scores" ∨ f = "_id") := by
    rintro (h | h)
    · exact h1 h
    · exact h2 h
  have hmain := mergeLoop_mem existing (confMapOf pd) pd f v hnd hmem hsp hbl []
    (getScoresOf existing)
  have hlk := merge_result_lookup existing pd srcs now f h3 h4 h5
  have hsc := getScoresOf_merge_result existing pd srcs now
  have hnodup := mergeLoop_updates_nodup existing (confMapOf pd) pd [] (getScoresOf existing)
    (by simp)
  have happ := applySets_lookup existing
    (mergeLoop existing (confMapOf pd) pd [] (getScoresOf existing)).1 f hnodup
  refine ⟨Frac.blt_val _ _ hde hdn, fun hc => ?_, fun hc => ?_⟩
  · have h' := hmain.1 hc
    refine ⟨?_, ?_⟩
    · rw [hlk, happ, h'.1]
    · rw [hsc, h'.2]
  · have h' := hmain.2 hc
    refine ⟨?_, ?_⟩
    · rw [hlk, happ, h'.1]
      simp [dlookup]
    · rw [hsc, h'.2]

/-- Existing record of the spec's §8 merge example
(`{name: "Widget", confidence: {name: 0.5}}`). -/
def exWidget : Doc :=
  [("_id", .str "w"), ("name", .str "Widget"),
   ("extraction_metadata", .obj [("field_confidence_scores", .obj [("name", .num ⟨5, 10⟩)])]),
   ("updated_at", .str "T1"), ("sources", .arr [.str "s1"])]

/-- Incoming record of the spec's §8 merge example
(`{name: "Widget Pro"}` with confidence `{name: 0.9}`). -/
def pdWidget : Doc :=
  [("name", .str "Widget Pro"), ("confidence_scores", .obj [("name", .num ⟨9, 10⟩)])]

/-- C1 witness: the spec's own §8 example — higher incoming confidence
(0.9 > 0.5) overwrites `name` and stores confidence 0.9. -/
theorem C1_witness :
    dlookup (merge_result exWidget pdWidget [] (.str "T2")) "name" = some (.str "Widget Pro") ∧
    dlookup (getScoresOf (merge_result exWidget pdWidget [] (.str "T2"))) "name" =
      some (.num ⟨9, 10⟩) :=
  (C1_merge_rule exWidget pdWidget [] (.str "T2") "name" (.str "Widget Pro")
    (by decide) (List.mem_cons_self _ _) (by decide)
    (by decide) (by decide) (by decide) (by decide) (by decide)
    (by decide) (by decide)).2.1 (by decide)

/-- Existing record for the C1 counterexample: `updated_at` is a
non-blank field with (default) confidence 0.5 on both sides. -/
def exTimeCx : Doc :=
  [("_id", .str "1"), ("name", .str "W"), ("updated_at", .str "T1"),
   ("extraction_metadata", .obj [("field_confidence_scores", .obj [])])]

/-- Incoming record for the C1 counterexample: it carries the field
`updated_at` with value `"T2"` and no confidence map. -/
def pdTimeCx : Doc := [("updated_at", .str "T2")]

/-- C1 counterexample: for the incoming field `updated_at` (non-null,
non-blank) the rule of the claim demands the existing value be kept —
the existing slot `"T1"` is non-blank and neither confidence exceeds the
other (both default to 0.5) — yet the merge writes the merge timestamp
(`now = "T9"`), which is neither the existing nor the incoming value.
The final conjuncts exhibit that no overwriting-iff-rule reading holds on
this bookkeeping field. -/
theorem C1_counterexample :
    dlookup exTimeCx "updated_at" = some (.str "T1") ∧
    existingNullBlank (dlookup exTimeCx "updated_at") = false ∧
    Frac.blt (confAt (getScoresOf exTimeCx) "updated_at")
      (confAt (confMapOf pdTimeCx) "updated_at") = false ∧
    dlookup pdTimeCx "updated_at" = some (.str "T2") ∧
    dlookup (merge_result exTimeCx pdTimeCx [] (.str "T9")) "updated_at" = some (.str "T9") ∧
    obeq (dlookup (merge_result exTimeCx pdTimeCx [] (.str "T9")) "updated_at")
      (dlookup exTimeCx "updated_at") = false ∧
    obeq (dlookup (merge_result exTimeCx pdTimeCx [] (.str "T9")) "updated_at")
      (dlookup pdTimeCx "updated_at") = false :=
  ⟨rfl, rfl, rfl, rfl, rfl, rfl, rfl⟩

/-- C8: frame property of `enrich_existing_product`, amended for the
bookkeeping keys: no field of the existing record is ever deleted; every
field other than `sources`, `updated_at` and `extraction_metadata` ends
up either unchanged or overwritten by a non-blank incoming value, and is
unchanged whenever every incoming binding for it is null/blank; the three
bookkeeping keys are instead rewritten unconditionally (sources
concatenation, merge timestamp, confidence-map update — see
`C8_counterexample`). -/
theorem C8_no_deletion (existing pd : Doc) (srcs : List Value) (now : Value) (f : String) :
    ((dlookup existing f).isSome →
       (dlookup (merge_result existing pd srcs now) f).isSome) ∧
    (f ∉ ["sources", "updated_at", "extraction_metadata"] →
       ∀ w, dlookup existing f = some w →
         dlookup (merge_result existing pd srcs now) f = some w ∨
         ∃ v, (f, v) ∈ pd ∧ isNullOrBlankV v = false ∧
           dlookup (merge_result existing pd srcs now) f = some v) ∧
    ((∀ v, (f, v) ∈ pd → isNullOrBlankV v = true) →
       f ∉ ["sources", "updated_at", "extraction_metadata"] →
       dlookup (merge_result existing pd srcs now) f = dlookup existing f) := by
  refine ⟨merge_result_isSome existing pd srcs now f, ?_, ?_⟩
  · intro hf w hw
    have h1 : f ≠ "sources" := fun h => hf (by rw [h]; exact List.mem_cons_self _ _)
    have h2 : f ≠ "updated_at" := fun h => hf (by rw [h]; simp)
    have h3 : f ≠ "extraction_metadata" := fun h => hf (by rw [h]; simp)
    have hlk := merge_result_lookup existing pd srcs now f h1 h2 h3
    have hnodup := mergeLoop_updates_nodup existing (confMapOf pd) pd [] (getScoresOf existing)
      (by simp)
    have happ := applySets_lookup existing
      (mergeLoop existing (confMapOf pd) pd [] (getScoresOf existing)).1 f hnodup
    rcases hup : dlookup (mergeLoop existing (confMapOf pd) pd [] (getScoresOf existing)).1 f
      with _ | v
    · left
      rw [hlk, happ, hup, hw]
    · right
      have hsrc := mergeLoop_updates_source existing (confMapOf pd) pd f []
        (getScoresOf existing) v hup
      rcases hsrc with h | h
      · cases h
      · exact ⟨v, h.1, h.2, by rw [hlk, happ, hup]⟩
  · intro hall hf
    have h1 : f ≠ "sources" := fun h => hf (by rw [h]; exact List.mem_cons_self _ _)
    have h2 : f ≠ "updated_at" := fun h => hf (by rw [h]; simp)
    have h3 : f ≠ "extraction_metadata" := fun h => hf (by rw [h]; simp)
    have hlk := merge_result_lookup existing pd srcs now f h1 h2 h3
    have hnodup := mergeLoop_updates_nodup existing (confMapOf pd) pd [] (getScoresOf existing)
      (by simp)
    have happ := applySets_lookup existing
      (mergeLoop existing (confMapOf pd) pd [] (getScoresOf existing)).1 f hnodup
    have hres := mergeLoop_notin existing (confMapOf pd) pd f
      (fun v hv => Or.inr (Or.inr (hall v hv))) [] (getScoresOf existing)
    rw [hlk, happ, hres.1]
    simp [dlookup]

/-- C8 witness: on the spec's §8 example, the `_id` field (absent from
the incoming record) is kept unchanged, and the present field `name`
still exists after the merge. -/
theorem C8_witness :
    dlookup (merge_result exWidget pdWidget [] (.str "T2")) "_id" = dlookup exWidget "_id" ∧
    (dlookup (merge_result exWidget pdWidget [] (.str "T2")) "name").isSome := by
  constructor
  · refine (C8_no_deletion exWidget pdWidget [] (.str "T2") "_id").2.2 ?_ (by decide)
    intro v hv
    exact absurd (show "_id" ∈ pdWidget.map Prod.fst from List.mem_map_of_mem Prod.fst hv)
      (by decide)
  · exact (C8_no_deletion exWidget pdWidget [] (.str "T2") "name").1 (by decide)

/-- Existing record for the C8 counterexample, carrying all three
bookkeeping fields. -/
def exBook : Doc :=
  [("_id", .str "1"), ("name", .str "W"), ("sources", .arr [.str "s1"]),
   ("updated_at", .str "T1"),
   ("extraction_metadata", .obj [("field_confidence_scores", .obj [("name", .num ⟨1, 2⟩)])])]

/-- Incoming record for the C8 counterexample: none of `sources`,
`updated_at`, `extraction_metadata` appears among its fields. -/
def pdBook : Doc :=
  [("name", .str "W2"), ("confidence_scores", .obj [("name", .num ⟨9, 10⟩)])]

/-- C8 counterexample: three fields present on the existing record and
absent from the incoming record do not keep their previous values — the
merge rewrites `sources` (concatenation with the new provenance),
`updated_at` (merge timestamp) and `extraction_metadata` (updated
confidence map) unconditionally. -/
theorem C8_counterexample :
    dlookup pdBook "sources" = none ∧
    dlookup pdBook "updated_at" = none ∧
    dlookup pdBook "extraction_metadata" = none ∧
    obeq (dlookup (merge_result exBook pdBook [.str "s2"] (.str "T2")) "sources")
      (dlookup exBook "sources") = false ∧
    obeq (dlookup (merge_result exBook pdBook [.str "s2"] (.str "T2")) "updated_at")
      (dlookup exBook "updated_at") = false ∧
    obeq (dlookup (merge_result exBook pdBook [.str "s2"] (.str "T2")) "extraction_metadata")
      (dlookup exBook "extraction_metadata") = false :=
  ⟨rfl, rfl, rfl, rfl, rfl, rfl⟩

/-- C4: identity resolution of `enrich_existing_product`: the lookup key
is the first truthy field in the order internal code (`default_code`) >
`barcode` > EAN code (`Code_EAN`); when all three are absent or falsy the
call returns the store unchanged (no write was issued) and fails with the
`ValueError` that the spec names ValidationError. -/
theorem C4_identity_resolution (store : List Doc) (pd : Doc) (srcs : List Value) (now : Value) :
    (∀ v, truthyLookup pd "default_code" = some v →
       identity_query pd = some ("default_code", v)) ∧
    (truthyLookup pd "default_code" = none →
       ∀ v, truthyLookup pd "barcode" = some v →
         identity_query pd = some ("barcode", v)) ∧
    (truthyLookup pd "default_code" = none → truthyLookup pd "barcode" = none →
       ∀ v, truthyLookup pd "Code_EAN" = some v →
         identity_query pd = some ("Code_EAN", v)) ∧
    (truthyLookup pd "default_code" = none → truthyLookup pd "barcode" = none →
       truthyLookup pd "Code_EAN" = none →
       enrich_existing_product store pd srcs now = (store, .error .validationError)) := by
  refine ⟨?_, ?_, ?_, ?_⟩
  · intro v hv
    simp [identity_query, hv]
  · intro h0 v hv
    simp [identity_query, h0, hv]
  · intro h0 h1 v hv
    simp [identity_query, h0, h1, hv]
  · intro h0 h1 h2
    simp [enrich_existing_product, identity_query, h0, h1, h2]

/-- Incoming record with both an internal code and a barcode. -/
def pdBoth : Doc := [("barcode", .str "B"), ("default_code", .str "D")]

/-- Incoming record with no identity field (name only). -/
def pdNoId : Doc := [("name", .str "x")]

/-- C4 witness: with both `default_code` and `barcode` present the
internal code wins; with no identity field the merge returns the store
untouched and the ValidationError. -/
theorem C4_witness :
    identity_query pdBoth = some ("default_code", .str "D") ∧
    enrich_existing_product [exWidget] pdNoId [] (.str "T") =
      ([exWidget], .error .validationError) :=
  ⟨(C4_identity_resolution [] pdBoth [] .null).1 (.str "D") rfl,
   (C4_identity_resolution [exWidget] pdNoId [] (.str "T")).2.2.2 rfl rfl rfl⟩

end Catalog

namespace Catalog

/-- Two stored documents whose `default_code` is an explicit BSON `null`
(e.g. inserted through `bulk_insert_products`, which does not strip falsy
identity fields, or a manual update). -/
def nullCodeDoc1 : Doc := [("_id", .str "n1"), ("default_code", .null), ("name", .str "P1")]

/-- Second stored document with `default_code = null`. -/
def nullCodeDoc2 : Doc := [("_id", .str "n2"), ("default_code", .null), ("name", .str "P2")]

/-- C5 (code bug): `get_duplicates_by_code` is meant — per its own
comment "Match only products with non-null default_code" and the spec —
to emit only groups keyed by a non-empty, non-null internal code.  But
the `$match` filter is the Python dict literal
`{"default_code": {"$ne": None, "$exists": True, "$ne": ""}}`, in which
the duplicated `"$ne"` key silently drops the `"$ne": None` condition.
On a store holding two documents with an explicit `null` code, the
pipeline therefore emits one group whose identity value is `null`
(member count 2, total 1 group), contradicting the claim. -/
theorem C5_null_code_group :
    (get_duplicates_by_code [nullCodeDoc1, nullCodeDoc2] 0 50 2).1.map
        (fun g => (g.default_code, g.count)) = [(.null, 2)] ∧
    (get_duplicates_by_code [nullCodeDoc1, nullCodeDoc2] 0 50 2).2 = 1 ∧
    dup_match nullCodeDoc1 = true ∧
    obeq (dlookup nullCodeDoc1 "default_code") (some .null) = true :=
  ⟨rfl, rfl, rfl, rfl⟩

end Catalog

namespace Catalog

theorem Frac.ble_val (a b : Frac) (ha : 0 < a.d) (hb : 0 < b.d) :
    (Frac.ble a b = true ↔ a.val ≤ b.val) := by
  have ha' : (0 : ℚ) < (a.d : ℚ) := by exact_mod_cast ha
  have hb' : (0 : ℚ) < (b.d : ℚ) := by exact_mod_cast hb
  rw [Frac.ble, decide_eq_true_eq, Frac.val, Frac.val, div_le_div_iff₀ ha' hb']
  constructor
  · intro h
    exact_mod_cast h
  · intro h
    exact_mod_cast h

theorem Frac.blt_false_val (a b : Frac) (ha : 0 < a.d) (hb : 0 < b.d) :
    (Frac.blt a b = false ↔ b.val ≤ a.val) := by
  have := Frac.blt_val a b ha hb
  constructor
  · intro h
    by_contra hc
    push_neg at hc
    rw [← this] at hc
    rw [h] at hc
    cases hc
  · intro h
    by_contra hc
    have : Frac.blt a b = true := by
      revert hc
      cases Frac.blt a b <;> simp
    rw [Frac.blt_val a b ha hb] at this
    exact absurd h (not_le.mpr this)

theorem insertDescBy_perm {α : Type} (key : α → Frac) (x : α) (l : List α) :
    List.Perm (insertDescBy key x l) (x :: l) := by
  induction l with
  | nil => exact List.Perm.refl _
  | cons y ys ih =>
    by_cases h : Frac.blt (key x) (key y) = true
    · simp only [insertDescBy, if_pos h]
      exact (ih.cons y).trans (List.Perm.swap x y ys)
    · simp only [insertDescBy, if_neg h]
      exact List.Perm.refl _

theorem sortDescBy_perm {α : Type} (key : α → Frac) (l : List α) :
    List.Perm (sortDescBy key l) l := by
  induction l with
  | nil => exact List.Perm.refl _
  | cons x xs ih =>
    exact (insertDescBy_perm key x (sortDescBy key xs)).trans (ih.cons x)

theorem mem_sortDescBy {α : Type} (key : α → Frac) (l : List α) (a : α) :
    a ∈ sortDescBy key l ↔ a ∈ l :=
  (sortDescBy_perm key l).mem_iff

theorem insertDescBy_front {α : Type} (key : α → Frac) (x : α) (l : List α)
    (h : ∀ y ∈ l, Frac.blt (key x) (key y) = false) :
    insertDescBy key x l = x :: l := by
  cases l with
  | nil => rfl
  | cons y ys =>
    simp only [insertDescBy, h y (List.mem_cons_self _ _)]
    rw [if_neg (by simp)]

theorem sortDescBy_max_block {α : Type} (key : α → Frac) (s : Frac) :
    ∀ (l1 : List α) (x : α) (l2 : List α),
      (∀ y ∈ l1, key y = s) → key x = s →
      (∀ y ∈ l1 ++ x :: l2, Frac.blt s (key y) = false) →
      ∃ t, sortDescBy key (l1 ++ x :: l2) = l1 ++ x :: t := by
  intro l1
  induction l1 with
  | nil =>
    intro x l2 _ hx hall
    refine ⟨sortDescBy key l2, ?_⟩
    simp only [List.nil_append, sortDescBy]
    refine insertDescBy_front key x _ ?_
    intro y hy
    rw [hx]
    exact hall y (List.mem_cons_of_mem x ((mem_sortDescBy key l2 y).1 hy))
  | cons y0 l1' ih =>
    intro x l2 h1 hx hall
    have h1' : ∀ y ∈ l1', key y = s := fun y hy => h1 y (List.mem_cons_of_mem _ hy)
    have hall' : ∀ y ∈ l1' ++ x :: l2, Frac.blt s (key y) = false :=
      fun y hy => hall y (List.mem_cons_of_mem _ hy)
    obtain ⟨t, ht⟩ := ih x l2 h1' hx hall'
    refine ⟨t, ?_⟩
    have hfront : ∀ y ∈ l1' ++ x :: t, Frac.blt (key y0) (key y) = false := by
      intro y hy
      rw [h1 y0 (List.mem_cons_self _ _)]
      rw [← ht] at hy
      exact hall y (List.mem_cons_of_mem _ ((mem_sortDescBy key _ y).1 hy))
    have hcons : (y0 :: l1') ++ x :: l2 = y0 :: (l1' ++ x :: l2) := rfl
    rw [hcons]
    simp only [sortDescBy]
    rw [ht, insertDescBy_front key y0 _ hfront, List.cons_append]

theorem mem_take_append {α : Type} (x : α) :
    ∀ (l1 : List α) (l2 : List α) (n : Nat), l1.length < n → x ∈ (l1 ++ x :: l2).take n := by
  intro l1
  induction l1 with
  | nil =>
    intro l2 n hn
    cases n with
    | zero => cases hn
    | succ k => exact List.mem_cons_self _ _
  | cons y l1' ih =>
    intro l2 n hn
    cases n with
    | zero => cases hn
    | succ k =>
      simp only [List.cons_append, List.take_succ_cons]
      exact List.mem_cons_of_mem _ (ih l2 k (Nat.lt_of_succ_lt_succ hn))

theorem insertDescBy_pairwise {α : Type} (key : α → Frac) (x : α) (l : List α)
    (hx : 0 < (key x).d) (hl : ∀ z ∈ l, 0 < (key z).d)
    (h : List.Pairwise (fun a b => (key b).val ≤ (key a).val) l) :
    List.Pairwise (fun a b => (key b).val ≤ (key a).val) (insertDescBy key x l) := by
  induction l with
  | nil => exact List.pairwise_singleton _ _
  | cons y ys ih =>
    have hy : 0 < (key y).d := hl y (List.mem_cons_self _ _)
    have hys : ∀ z ∈ ys, 0 < (key z).d := fun z hz => hl z (List.mem_cons_of_mem _ hz)
    rcases List.pairwise_cons.1 h with ⟨hyall, hys_pw⟩
    by_cases hb : Frac.blt (key x) (key y) = true
    · simp only [insertDescBy, if_pos hb]
      rw [List.pairwise_cons]
      refine ⟨?_, ih hys hys_pw⟩
      intro z hz
      rcases List.mem_cons.1 ((insertDescBy_perm key x ys).mem_iff.1 hz) with rfl | hz'
      · exact le_of_lt ((Frac.blt_val _ _ hx hy).1 hb)
      · exact hyall z hz'
    · simp only [insertDescBy, if_neg hb]
      rw [List.pairwise_cons]
      have hxy : (key y).val ≤ (key x).val := by
        rw [← Frac.blt_false_val _ _ hx hy]
        revert hb
        cases Frac.blt (key x) (key y) <;> simp
      refine ⟨?_, h⟩
      intro z hz
      rcases List.mem_cons.1 hz with rfl | hz'
      · exact hxy
      · exact le_trans (hyall z hz') hxy

theorem sortDescBy_pairwise {α : Type} (key : α → Frac) (l : List α)
    (hl : ∀ z ∈ l, 0 < (key z).d) :
    List.Pairwise (fun a b => (key b).val ≤ (key a).val) (sortDescBy key l) := by
  induction l with
  | nil => exact List.Pairwise.nil
  | cons x xs ih =>
    have hxs : ∀ z ∈ xs, 0 < (key z).d := fun z hz => hl z (List.mem_cons_of_mem _ hz)
    exact insertDescBy_pairwise key x (sortDescBy key xs) (hl x (List.mem_cons_self _ _))
      (fun z hz => hxs z ((mem_sortDescBy key xs z).1 hz)) (ih hxs)

theorem insertDescBy_filter {α : Type} (key : α → Frac) (s : ℚ) (x : α) (l : List α)
    (hx : 0 < (key x).d) (hl : ∀ z ∈ l, 0 < (key z).d) :
    (insertDescBy key x l).filter (fun z => decide ((key z).val = s)) =
      if (key x).val = s then x :: l.filter (fun z => decide ((key z).val = s))
      else l.filter (fun z => decide ((key z).val = s)) := by
  induction l with
  | nil =>
    by_cases hxs : (key x).val = s <;> simp [insertDescBy, List.filter, hxs]
  | cons y ys ih =>
    have hy : 0 < (key y).d := hl y (List.mem_cons_self _ _)
    have hys : ∀ z ∈ ys, 0 < (key z).d := fun z hz => hl z (List.mem_cons_of_mem _ hz)
    by_cases hb : Frac.blt (key x) (key y) = true
    · have hlt : (key x).val < (key y).val := (Frac.blt_val _ _ hx hy).1 hb
      simp only [insertDescBy, if_pos hb]
      by_cases hxs : (key x).val = s
      · have hyns : ¬((key y).val = s) := by
          rw [← hxs]
          exact ne_of_gt hlt
        rw [if_pos hxs]
        rw [List.filter_cons, List.filter_cons]
        simp only [decide_eq_true_eq, if_neg hyns]
        rw [ih hys, if_pos hxs]
      · rw [if_neg hxs]
        rw [List.filter_cons, List.filter_cons]
        rw [ih hys, if_neg hxs]
    · simp only [insertDescBy, if_neg hb]
      by_cases hxs : (key x).val = s
      · rw [if_pos hxs, List.filter_cons]
        simp only [decide_eq_true_eq, if_pos hxs]
      · rw [if_neg hxs, List.filter_cons]
        simp only [decide_eq_true_eq, if_neg hxs]

theorem sortDescBy_filter {α : Type} (key : α → Frac) (s : ℚ) (l : List α)
    (hl : ∀ z ∈ l, 0 < (key z).d) :
    (sortDescBy key l).filter (fun z => decide ((key z).val = s)) =
      l.filter (fun z => decide ((key z).val = s)) := by
  induction l with
  | nil => rfl
  | cons x xs ih =>
    have hxs : ∀ z ∈ xs, 0 < (key z).d := fun z hz => hl z (List.mem_cons_of_mem _ hz)
    have hsx : ∀ z ∈ sortDescBy key xs, 0 < (key z).d :=
      fun z hz => hxs z ((mem_sortDescBy key xs z).1 hz)
    simp only [sortDescBy]
    rw [insertDescBy_filter key s x _ (hl x (List.mem_cons_self _ _)) hsx, ih hxs,
      List.filter_cons]
    by_cases hv : (key x).val = s
    · simp [hv]
    · simp [hv]

end Catalog

namespace Catalog

theorem addStage_spec {α : Type} (mk : α → MatchResult) (gid : α → String) (cap : Option Nat)
    (xs : List α) : ∀ ms seen, ∃ delta sdelta,
      addStage mk gid cap xs (ms, seen) = (ms ++ delta, seen ++ sdelta) ∧
      ∀ m ∈ delta, ∃ x ∈ xs, m = mk x := by
  induction xs with
  | nil =>
    intro ms seen
    exact ⟨[], [], by simp [addStage], by simp⟩
  | cons x xs ih =>
    intro ms seen
    by_cases hs : gid x ∈ seen
    · obtain ⟨delta, sdelta, heq, hmem⟩ := ih ms seen
      refine ⟨delta, sdelta, ?_, ?_⟩
      · simp only [addStage, if_pos hs]
        exact heq
      · intro m hm
        obtain ⟨x', hx', hmx⟩ := hmem m hm
        exact ⟨x', List.mem_cons_of_mem _ hx', hmx⟩
    · cases cap with
      | none =>
        obtain ⟨delta, sdelta, heq, hmem⟩ := ih (ms ++ [mk x]) (seen ++ [gid x])
        refine ⟨mk x :: delta, gid x :: sdelta, ?_, ?_⟩
        · simp only [addStage, if_neg hs]
          rw [heq]
          simp
        · intro m hm
          rcases List.mem_cons.1 hm with rfl | hm'
          · exact ⟨x, List.mem_cons_self _ _, rfl⟩
          · obtain ⟨x', hx', hmx⟩ := hmem m hm'
            exact ⟨x', List.mem_cons_of_mem _ hx', hmx⟩
      | some c =>
        by_cases hc : c ≤ (ms ++ [mk x]).length
        · refine ⟨[mk x], [gid x], ?_, ?_⟩
          · simp only [addStage, if_neg hs]
            rw [if_pos hc]
          · intro m hm
            rcases List.mem_cons.1 hm with rfl | hm'
            · exact ⟨x, List.mem_cons_self _ _, rfl⟩
            · cases hm'
        · obtain ⟨delta, sdelta, heq, hmem⟩ := ih (ms ++ [mk x]) (seen ++ [gid x])
          refine ⟨mk x :: delta, gid x :: sdelta, ?_, ?_⟩
          · simp only [addStage, if_neg hs]
            rw [if_neg hc, heq]
            simp
          · intro m hm
            rcases List.mem_cons.1 hm with rfl | hm'
            · exact ⟨x, List.mem_cons_self _ _, rfl⟩
            · obtain ⟨x', hx', hmx⟩ := hmem m hm'
              exact ⟨x', List.mem_cons_of_mem _ hx', hmx⟩

theorem addStage_inv {α : Type} (mk : α → MatchResult) (gid : α → String) (cap : Option Nat)
    (hmk : ∀ x, (mk x).product_id = gid x) (xs : List α) :
    ∀ ms seen, (ms.map (fun m => m.product_id)).Nodup →
      (∀ i ∈ ms.map (fun m => m.product_id), i ∈ seen) →
      ((addStage mk gid cap xs (ms, seen)).1.map (fun m => m.product_id)).Nodup ∧
      (∀ i ∈ (addStage mk gid cap xs (ms, seen)).1.map (fun m => m.product_id),
        i ∈ (addStage mk gid cap xs (ms, seen)).2) := by
  induction xs with
  | nil =>
    intro ms seen h1 h2
    exact ⟨h1, h2⟩
  | cons x xs ih =>
    intro ms seen h1 h2
    by_cases hs : gid x ∈ seen
    · simp only [addStage, if_pos hs]
      exact ih ms seen h1 h2
    · have hnotin : gid x ∉ ms.map (fun m => m.product_id) := fun hin => hs (h2 _ hin)
      have h1' : ((ms ++ [mk x]).map (fun m => m.product_id)).Nodup := by
        rw [List.map_append]
        simp only [List.map_cons, List.map_nil, hmk x]
        rw [List.nodup_append]
        exact ⟨h1, List.nodup_singleton _, by simpa using hnotin⟩
      have h2' : ∀ i ∈ (ms ++ [mk x]).map (fun m => m.product_id), i ∈ seen ++ [gid x] := by
        intro i hi
        rw [List.map_append, List.mem_append] at hi
        rcases hi with hi | hi
        · exact List.mem_append_left _ (h2 i hi)
        · simp only [List.map_cons, List.map_nil, hmk x, List.mem_singleton] at hi
          subst hi
          exact List.mem_append_right _ (List.mem_singleton_self _)
      cases cap with
      | none =>
        simp only [addStage, if_neg hs]
        exact ih _ _ h1' h2'
      | some c =>
        by_cases hc : c ≤ (ms ++ [mk x]).length
        · simp only [addStage, if_neg hs]
          rw [if_pos hc]
          exact ⟨h1', h2'⟩
        · simp only [addStage, if_neg hs]
          rw [if_neg hc]
          exact ih _ _ h1' h2'

theorem stage1_spec (st : Store) (q : Doc) (acc : List MatchResult × List String) :
    ∃ delta sdelta, stage1 st q acc = (acc.1 ++ delta, acc.2 ++ sdelta) ∧
      ∀ m ∈ delta, m.score = ⟨1, 1⟩ ∧ m.match_type = "exact_barcode" := by
  obtain ⟨ms, seen⟩ := acc
  by_cases hb : pyTruthy (qget q "barcode") = true
  · obtain ⟨delta, sdelta, heq, hmem⟩ := addStage_spec (mkBarcode (qget q "barcode")) docIdStr
      none (find_by_barcode st (qget q "barcode")) ms seen
    refine ⟨delta, sdelta, ?_, ?_⟩
    · simp only [stage1, if_pos hb]
      exact heq
    · intro m hm
      obtain ⟨x, _, rfl⟩ := hmem m hm
      exact ⟨rfl, rfl⟩
  · refine ⟨[], [], ?_, by simp⟩
    simp [stage1, hb]

theorem stage2_spec (st : Store) (q : Doc) (acc : List MatchResult × List String) :
    ∃ delta sdelta, stage2 st q acc = (acc.1 ++ delta, acc.2 ++ sdelta) ∧
      ∀ m ∈ delta, m.score = ⟨1, 1⟩ ∧ m.match_type = "exact_ean" := by
  obtain ⟨ms, seen⟩ := acc
  by_cases hb : (pyTruthy (qCodeEan q) && !(qCodeEan q == qget q "barcode")) = true
  · obtain ⟨delta, sdelta, heq, hmem⟩ := addStage_spec (mkEan (qCodeEan q)) docIdStr
      none (find_by_code_ean st (qCodeEan q)) ms seen
    refine ⟨delta, sdelta, ?_, ?_⟩
    · simp only [stage2, if_pos hb]
      exact heq
    · intro m hm
      obtain ⟨x, _, rfl⟩ := hmem m hm
      exact ⟨rfl, rfl⟩
  · refine ⟨[], [], ?_, by simp⟩
    simp [stage2, hb]

theorem stage3_spec (st : Store) (q : Doc) (acc : List MatchResult × List String) :
    ∃ delta sdelta, stage3 st q acc = (acc.1 ++ delta, acc.2 ++ sdelta) ∧
      ∀ m ∈ delta, m.score = ⟨95, 100⟩ ∧ m.match_type = "exact_code" := by
  obtain ⟨ms, seen⟩ := acc
  by_cases hb : pyTruthy (qget q "default_code") = true
  · obtain ⟨delta, sdelta, heq, hmem⟩ := addStage_spec (mkCode (qget q "default_code")) docIdStr
      none (find_by_default_code st (qget q "default_code")) ms seen
    refine ⟨delta, sdelta, ?_, ?_⟩
    · simp only [stage3, if_pos hb]
      exact heq
    · intro m hm
      obtain ⟨x, _, rfl⟩ := hmem m hm
      exact ⟨rfl, rfl⟩
  · refine ⟨[], [], ?_, by simp⟩
    simp [stage3, hb]

theorem mkRef_score (c r : Value) (p : Doc) :
    (mkRef c r p).score = ⟨85, 100⟩ ∨ (mkRef c r p).score = ⟨9500, 10000⟩ := by
  simp only [mkRef, mkBase]
  split
  · right
    rfl
  · left
    rfl

theorem stage4_spec (st : Store) (q : Doc) (acc : List MatchResult × List String) :
    ∃ delta sdelta, stage4 st q acc = (acc.1 ++ delta, acc.2 ++ sdelta) ∧
      ∀ m ∈ delta, m.match_type = "manufacturer_ref" ∧
        (m.score = ⟨85, 100⟩ ∨ m.score = ⟨9500, 10000⟩) := by
  obtain ⟨ms, seen⟩ := acc
  by_cases hb : pyTruthy (qRefConstructeur q) = true
  · obtain ⟨delta, sdelta, heq, hmem⟩ := addStage_spec
      (mkRef (qget q "constructeur") (qRefConstructeur q)) docIdStr
      none (find_by_manufacturer_ref st (qRefConstructeur q) (qget q "constructeur")) ms seen
    refine ⟨delta, sdelta, ?_, ?_⟩
    · simp only [stage4, if_pos hb]
      exact heq
    · intro m hm
      obtain ⟨x, _, rfl⟩ := hmem m hm
      exact ⟨rfl, mkRef_score _ _ _⟩
  · refine ⟨[], [], ?_, by simp⟩
    simp [stage4, hb]

theorem stage5_spec (st : Store) (q : Doc) (mr : Nat) (acc : List MatchResult × List String) :
    ∃ delta sdelta, stage5 st q mr acc = (acc.1 ++ delta, acc.2 ++ sdelta) ∧
      ∀ m ∈ delta, ∃ pr ∈ find_by_fuzzy_name st (dgetD q "name" (.str "")) acc.2,
        m = mkFuzzy pr := by
  obtain ⟨ms, seen⟩ := acc
  by_cases hb : (ms.length < mr && pyTruthy (dgetD q "name" (.str ""))) = true
  · obtain ⟨delta, sdelta, heq, hmem⟩ := addStage_spec mkFuzzy (fun pr => docIdStr pr.1)
      (some mr) (find_by_fuzzy_name st (dgetD q "name" (.str "")) seen) ms seen
    refine ⟨delta, sdelta, ?_, ?_⟩
    · simp only [stage5, hb]
      exact heq
    · intro m hm
      obtain ⟨x, hx, rfl⟩ := hmem m hm
      exact ⟨x, hx, rfl⟩
  · refine ⟨[], [], ?_, by simp⟩
    simp [stage5, hb]

theorem stage6_spec (st : Store) (q : Doc) (mr : Nat) (acc : List MatchResult × List String) :
    ∃ delta sdelta, stage6 st q mr acc = (acc.1 ++ delta, acc.2 ++ sdelta) ∧
      ∀ m ∈ delta, m.score = ⟨50, 100⟩ ∧ m.match_type = "partial_code" := by
  obtain ⟨ms, seen⟩ := acc
  by_cases hb : (pyTruthy (qget q "default_code") && ms.length < mr) = true
  · obtain ⟨delta, sdelta, heq, hmem⟩ := addStage_spec mkPart docIdStr
      (some mr) (find_by_partcode st (qget q "default_code") seen) ms seen
    refine ⟨delta, sdelta, ?_, ?_⟩
    · simp only [stage6, hb]
      exact heq
    · intro m hm
      obtain ⟨x, _, rfl⟩ := hmem m hm
      exact ⟨rfl, rfl⟩
  · refine ⟨[], [], ?_, by simp⟩
    simp [stage6, hb]

end Catalog

namespace Catalog

theorem build_matches_decomp (st : Store) (q : Doc) (mr : Nat) :
    ∃ d1 d2 d3 d4 d5 d6 : List MatchResult,
      build_matches st q mr = ((((d1 ++ d2) ++ d3) ++ d4) ++ d5) ++ d6 ∧
      (∀ m ∈ d1, m.score = ⟨1, 1⟩ ∧ m.match_type = "exact_barcode") ∧
      (∀ m ∈ d2, m.score = ⟨1, 1⟩ ∧ m.match_type = "exact_ean") ∧
      (∀ m ∈ d3, m.score = ⟨95, 100⟩ ∧ m.match_type = "exact_code") ∧
      (∀ m ∈ d4, m.match_type = "manufacturer_ref" ∧
        (m.score = ⟨85, 100⟩ ∨ m.score = ⟨9500, 10000⟩)) ∧
      (∀ m ∈ d5, ∃ excl pr, pr ∈ find_by_fuzzy_name st (dgetD q "name" (.str "")) excl ∧
        m = mkFuzzy pr) ∧
      (∀ m ∈ d6, m.score = ⟨50, 100⟩ ∧ m.match_type = "partial_code") := by
  obtain ⟨d1, s1, h1, p1⟩ := stage1_spec st q ([], [])
  obtain ⟨d2, s2, h2, p2⟩ := stage2_spec st q (stage1 st q ([], []))
  obtain ⟨d3, s3, h3, p3⟩ := stage3_spec st q (stage2 st q (stage1 st q ([], [])))
  obtain ⟨d4, s4, h4, p4⟩ := stage4_spec st q
    (stage3 st q (stage2 st q (stage1 st q ([], []))))
  obtain ⟨d5, s5, h5, p5⟩ := stage5_spec st q mr
    (stage4 st q (stage3 st q (stage2 st q (stage1 st q ([], [])))))
  obtain ⟨d6, s6, h6, p6⟩ := stage6_spec st q mr
    (stage5 st q mr (stage4 st q (stage3 st q (stage2 st q (stage1 st q ([], []))))))
  have e1 : (stage1 st q ([], [])).1 = d1 := by rw [h1]; rfl
  have e2 : (stage2 st q (stage1 st q ([], []))).1 = d1 ++ d2 := by rw [h2, e1]
  have e3 : (stage3 st q (stage2 st q (stage1 st q ([], [])))).1 = (d1 ++ d2) ++ d3 := by
    rw [h3, e2]
  have e4 : (stage4 st q (stage3 st q (stage2 st q (stage1 st q ([], []))))).1 =
      ((d1 ++ d2) ++ d3) ++ d4 := by rw [h4, e3]
  have e5 : (stage5 st q mr (stage4 st q (stage3 st q (stage2 st q (stage1 st q ([], [])))))).1 =
      (((d1 ++ d2) ++ d3) ++ d4) ++ d5 := by rw [h5, e4]
  have e6 : (stage6 st q mr (stage5 st q mr (stage4 st q (stage3 st q
      (stage2 st q (stage1 st q ([], []))))))).1 =
      ((((d1 ++ d2) ++ d3) ++ d4) ++ d5) ++ d6 := by rw [h6, e5]
  refine ⟨d1, d2, d3, d4, d5, d6, e6, p1, p2, p3, p4, ?_, p6⟩
  intro m hm
  obtain ⟨pr, hpr, heq⟩ := p5 m hm
  exact ⟨_, pr, hpr, heq⟩

theorem mkFuzzy_score (pr : Doc × Frac) :
    (mkFuzzy pr).score = ⟨75, 100⟩ ∨ (mkFuzzy pr).score = ⟨60, 100⟩ := by
  simp only [mkFuzzy, mkBase]
  split
  · left
    rfl
  · right
    rfl

theorem build_matches_score_pos (st : Store) (q : Doc) (mr : Nat) :
    ∀ m ∈ build_matches st q mr, 0 < m.score.d := by
  obtain ⟨d1, d2, d3, d4, d5, d6, heq, p1, p2, p3, p4, p5, p6⟩ := build_matches_decomp st q mr
  intro m hm
  rw [heq] at hm
  simp only [List.mem_append] at hm
  rcases hm with ((((hm | hm) | hm) | hm) | hm) | hm
  · rw [(p1 m hm).1]
    decide
  · rw [(p2 m hm).1]
    decide
  · rw [(p3 m hm).1]
    decide
  · rcases (p4 m hm).2 with h | h <;> rw [h] <;> decide
  · obtain ⟨excl, pr, _, rfl⟩ := p5 m hm
    rcases mkFuzzy_score pr with h | h <;> rw [h] <;> decide
  · rw [(p6 m hm).1]
    decide

theorem build_matches_le_one (st : Store) (q : Doc) (mr : Nat) :
    ∀ m ∈ build_matches st q mr, Frac.blt ⟨1, 1⟩ m.score = false := by
  obtain ⟨d1, d2, d3, d4, d5, d6, heq, p1, p2, p3, p4, p5, p6⟩ := build_matches_decomp st q mr
  intro m hm
  rw [heq] at hm
  simp only [List.mem_append] at hm
  rcases hm with ((((hm | hm) | hm) | hm) | hm) | hm
  · rw [(p1 m hm).1]
    decide
  · rw [(p2 m hm).1]
    decide
  · rw [(p3 m hm).1]
    decide
  · rcases (p4 m hm).2 with h | h <;> rw [h] <;> decide
  · obtain ⟨excl, pr, _, rfl⟩ := p5 m hm
    rcases mkFuzzy_score pr with h | h <;> rw [h] <;> decide
  · rw [(p6 m hm).1]
    decide

end Catalog

namespace Catalog

theorem addStage_inv' {α : Type} (mk : α → MatchResult) (gid : α → String) (cap : Option Nat)
    (hmk : ∀ x, (mk x).product_id = gid x) (xs : List α) (acc : List MatchResult × List String)
    (h1 : (acc.1.map (fun m => m.product_id)).Nodup)
    (h2 : ∀ i ∈ acc.1.map (fun m => m.product_id), i ∈ acc.2) :
    ((addStage mk gid cap xs acc).1.map (fun m => m.product_id)).Nodup ∧
    (∀ i ∈ (addStage mk gid cap xs acc).1.map (fun m => m.product_id),
      i ∈ (addStage mk gid cap xs acc).2) := by
  obtain ⟨ms, seen⟩ := acc
  exact addStage_inv mk gid cap hmk xs ms seen h1 h2

theorem mkFuzzy_pid (pr : Doc × Frac) : (mkFuzzy pr).product_id = docIdStr pr.1 := by
  simp only [mkFuzzy, mkBase]
  split <;> rfl

theorem stage1_inv (st : Store) (q : Doc) (acc : List MatchResult × List String)
    (h1 : (acc.1.map (fun m => m.product_id)).Nodup)
    (h2 : ∀ i ∈ acc.1.map (fun m => m.product_id), i ∈ acc.2) :
    ((stage1 st q acc).1.map (fun m => m.product_id)).Nodup ∧
    (∀ i ∈ (stage1 st q acc).1.map (fun m => m.product_id), i ∈ (stage1 st q acc).2) := by
  by_cases hb : pyTruthy (qget q "barcode") = true
  · simp only [stage1, if_pos hb]
    exact addStage_inv' _ _ _ (fun x => rfl) _ acc h1 h2
  · simp only [stage1, if_neg hb]
    exact ⟨h1, h2⟩

theorem stage2_inv (st : Store) (q : Doc) (acc : List MatchResult × List String)
    (h1 : (acc.1.map (fun m => m.product_id)).Nodup)
    (h2 : ∀ i ∈ acc.1.map (fun m => m.product_id), i ∈ acc.2) :
    ((stage2 st q acc).1.map (fun m => m.product_id)).Nodup ∧
    (∀ i ∈ (stage2 st q acc).1.map (fun m => m.product_id), i ∈ (stage2 st q acc).2) := by
  by_cases hb : (pyTruthy (qCodeEan q) && !(qCodeEan q == qget q "barcode")) = true
  · simp only [stage2, hb, if_pos]
    exact addStage_inv' _ _ _ (fun x => rfl) _ acc h1 h2
  · simp only [stage2, hb]
    exact ⟨h1, h2⟩

theorem stage3_inv (st : Store) (q : Doc) (acc : List MatchResult × List String)
    (h1 : (acc.1.map (fun m => m.product_id)).Nodup)
    (h2 : ∀ i ∈ acc.1.map (fun m => m.product_id), i ∈ acc.2) :
    ((stage3 st q acc).1.map (fun m => m.product_id)).Nodup ∧
    (∀ i ∈ (stage3 st q acc).1.map (fun m => m.product_id), i ∈ (stage3 st q acc).2) := by
  by_cases hb : pyTruthy (qget q "default_code") = true
  · simp only [stage3, if_pos hb]
    exact addStage_inv' _ _ _ (fun x => rfl) _ acc h1 h2
  · simp only [stage3, if_neg hb]
    exact ⟨h1, h2⟩

theorem stage4_inv (st : Store) (q : Doc) (acc : List MatchResult × List String)
    (h1 : (acc.1.map (fun m => m.product_id)).Nodup)
    (h2 : ∀ i ∈ acc.1.map (fun m => m.product_id), i ∈ acc.2) :
    ((stage4 st q acc).1.map (fun m => m.product_id)).Nodup ∧
    (∀ i ∈ (stage4 st q acc).1.map (fun m => m.product_id), i ∈ (stage4 st q acc).2) := by
  by_cases hb : pyTruthy (qRefConstructeur q) = true
  · simp only [stage4, if_pos hb]
    exact addStage_inv' _ _ _ (fun x => rfl) _ acc h1 h2
  · simp only [stage4, if_neg hb]
    exact ⟨h1, h2⟩

theorem stage5_inv (st : Store) (q : Doc) (mr : Nat) (acc : List MatchResult × List String)
    (h1 : (acc.1.map (fun m => m.product_id)).Nodup)
    (h2 : ∀ i ∈ acc.1.map (fun m => m.product_id), i ∈ acc.2) :
    ((stage5 st q mr acc).1.map (fun m => m.product_id)).Nodup ∧
    (∀ i ∈ (stage5 st q mr acc).1.map (fun m => m.product_id), i ∈ (stage5 st q mr acc).2) := by
  by_cases hb : (acc.1.length < mr && pyTruthy (dgetD q "name" (.str ""))) = true
  · simp only [stage5, hb, if_pos]
    exact addStage_inv' _ _ _ mkFuzzy_pid _ acc h1 h2
  · simp only [stage5, hb]
    exact ⟨h1, h2⟩

theorem stage6_inv (st : Store) (q : Doc) (mr : Nat) (acc : List MatchResult × List String)
    (h1 : (acc.1.map (fun m => m.product_id)).Nodup)
    (h2 : ∀ i ∈ acc.1.map (fun m => m.product_id), i ∈ acc.2) :
    ((stage6 st q mr acc).1.map (fun m => m.product_id)).Nodup ∧
    (∀ i ∈ (stage6 st q mr acc).1.map (fun m => m.product_id), i ∈ (stage6 st q mr acc).2) := by
  by_cases hb : (pyTruthy (qget q "default_code") && acc.1.length < mr) = true
  · simp only [stage6, hb, if_pos]
    exact addStage_inv' _ _ _ (fun x => rfl) _ acc h1 h2
  · simp only [stage6, hb]
    exact ⟨h1, h2⟩

theorem build_matches_ids_nodup (st : Store) (q : Doc) (mr : Nat) :
    ((build_matches st q mr).map (fun m => m.product_id)).Nodup := by
  have i0 : ((([], []) : List MatchResult × List String).1.map
      (fun m => m.product_id)).Nodup ∧
      (∀ i ∈ (([], []) : List MatchResult × List String).1.map (fun m => m.product_id),
        i ∈ (([], []) : List MatchResult × List String).2) := ⟨List.nodup_nil, by simp⟩
  have i1 := stage1_inv st q ([], []) i0.1 i0.2
  have i2 := stage2_inv st q _ i1.1 i1.2
  have i3 := stage3_inv st q _ i2.1 i2.2
  have i4 := stage4_inv st q _ i3.1 i3.2
  have i5 := stage5_inv st q mr _ i4.1 i4.2
  have i6 := stage6_inv st q mr _ i5.1 i5.2
  exact i6.1

/-- C2: every list returned by `find_matches` is sorted by score in
descending (rational) order, has length at most `max_results`, and
mentions each candidate `product_id` at most once (the shared
`seen_ids` set and the per-candidate guard make every appended id
fresh; the stable sort and the truncation preserve all three
properties). -/
theorem C2_result_list_invariants (st : Store) (q : Doc) (mr : Nat) :
    List.Pairwise (fun a b => b.score.val ≤ a.score.val) (find_matches st q mr) ∧
    (find_matches st q mr).length ≤ mr ∧
    ((find_matches st q mr).map (fun m => m.product_id)).Nodup := by
  have hpos := build_matches_score_pos st q mr
  have hperm := sortDescBy_perm (fun m => m.score) (build_matches st q mr)
  refine ⟨?_, ?_, ?_⟩
  · have hsorted := sortDescBy_pairwise (fun m => m.score) (build_matches st q mr) hpos
    exact hsorted.sublist (List.take_sublist mr _)
  · rw [find_matches, List.length_take]
    exact min_le_left _ _
  · have hnodup := build_matches_ids_nodup st q mr
    have hsorted_nodup : ((sortDescBy (fun m => m.score) (build_matches st q mr)).map
        (fun m => m.product_id)).Nodup :=
      ((hperm.map (fun m => m.product_id)).nodup_iff).2 hnodup
    rw [find_matches, List.map_take]
    exact hsorted_nodup.sublist (List.take_sublist mr _)

end Catalog

namespace Catalog

/-- The priority of the matcher identified by a `match_type` tag (both
fuzzy buckets come from the single stage-5 matcher). -/
def matcherRank (t : String) : Nat :=
  if t = "exact_barcode" then 1
  else if t = "exact_ean" then 2
  else if t = "exact_code" then 3
  else if t = "manufacturer_ref" then 4
  else if t = "fuzzy_name_high" then 5
  else if t = "fuzzy_name_medium" then 5
  else if t = "partial_code" then 6
  else 7

theorem mkFuzzy_type (pr : Doc × Frac) :
    (mkFuzzy pr).match_type = "fuzzy_name_high" ∨
    (mkFuzzy pr).match_type = "fuzzy_name_medium" := by
  simp only [mkFuzzy, mkBase]
  split
  · left
    rfl
  · right
    rfl

theorem pairwise_rank_append (l1 l2 : List MatchResult) (K : Nat)
    (h1 : List.Pairwise (fun a b => matcherRank a.match_type ≤ matcherRank b.match_type) l1)
    (hb1 : ∀ m ∈ l1, matcherRank m.match_type ≤ K)
    (h2 : List.Pairwise (fun a b => matcherRank a.match_type ≤ matcherRank b.match_type) l2)
    (hb2 : ∀ m ∈ l2, K ≤ matcherRank m.match_type) :
    List.Pairwise (fun a b => matcherRank a.match_type ≤ matcherRank b.match_type) (l1 ++ l2) :=
  List.pairwise_append.2 ⟨h1, h2, fun a ha b hb => le_trans (hb1 a ha) (hb2 b hb)⟩

theorem pairwise_rank_const (l : List MatchResult) (r : Nat)
    (h : ∀ m ∈ l, matcherRank m.match_type = r) :
    List.Pairwise (fun a b => matcherRank a.match_type ≤ matcherRank b.match_type) l := by
  induction l with
  | nil => exact List.Pairwise.nil
  | cons m t ih =>
    rw [List.pairwise_cons]
    refine ⟨?_, ih (fun m' hm' => h m' (List.mem_cons_of_mem _ hm'))⟩
    intro b hb
    rw [h m (List.mem_cons_self _ _), h b (List.mem_cons_of_mem _ hb)]

theorem build_matches_rank_pairwise (st : Store) (q : Doc) (mr : Nat) :
    List.Pairwise (fun a b => matcherRank a.match_type ≤ matcherRank b.match_type)
      (build_matches st q mr) := by
  obtain ⟨d1, d2, d3, d4, d5, d6, heq, p1, p2, p3, p4, p5, p6⟩ := build_matches_decomp st q mr
  have r1 : ∀ m ∈ d1, matcherRank m.match_type = 1 := by
    intro m hm
    rw [(p1 m hm).2]
    decide
  have r2 : ∀ m ∈ d2, matcherRank m.match_type = 2 := by
    intro m hm
    rw [(p2 m hm).2]
    decide
  have r3 : ∀ m ∈ d3, matcherRank m.match_type = 3 := by
    intro m hm
    rw [(p3 m hm).2]
    decide
  have r4 : ∀ m ∈ d4, matcherRank m.match_type = 4 := by
    intro m hm
    rw [(p4 m hm).1]
    decide
  have r5 : ∀ m ∈ d5, matcherRank m.match_type = 5 := by
    intro m hm
    obtain ⟨excl, pr, _, rfl⟩ := p5 m hm
    rcases mkFuzzy_type pr with h | h <;> rw [h] <;> decide
  have r6 : ∀ m ∈ d6, matcherRank m.match_type = 6 := by
    intro m hm
    rw [(p6 m hm).2]
    decide
  rw [heq]
  have c1 := pairwise_rank_const d1 1 r1
  have c2 := pairwise_rank_const d2 2 r2
  have c3 := pairwise_rank_const d3 3 r3
  have c4 := pairwise_rank_const d4 4 r4
  have c5 := pairwise_rank_const d5 5 r5
  have c6 := pairwise_rank_const d6 6 r6
  have a12 := pairwise_rank_append d1 d2 1 c1 (fun m hm => le_of_eq (r1 m hm)) c2
    (fun m hm => by rw [r2 m hm]; decide)
  have u12 : ∀ m ∈ d1 ++ d2, matcherRank m.match_type ≤ 2 := by
    intro m hm
    rcases List.mem_append.1 hm with hm | hm
    · rw [r1 m hm]; decide
    · rw [r2 m hm]
  have a13 := pairwise_rank_append (d1 ++ d2) d3 2 a12 u12 c3
    (fun m hm => by rw [r3 m hm]; decide)
  have u13 : ∀ m ∈ (d1 ++ d2) ++ d3, matcherRank m.match_type ≤ 3 := by
    intro m hm
    rcases List.mem_append.1 hm with hm | hm
    · exact le_trans (u12 m hm) (by decide)
    · rw [r3 m hm]
  have a14 := pairwise_rank_append ((d1 ++ d2) ++ d3) d4 3 a13 u13 c4
    (fun m hm => by rw [r4 m hm]; decide)
  have u14 : ∀ m ∈ ((d1 ++ d2) ++ d3) ++ d4, matcherRank m.match_type ≤ 4 := by
    intro m hm
    rcases List.mem_append.1 hm with hm | hm
    · exact le_trans (u13 m hm) (by decide)
    · rw [r4 m hm]
  have a15 := pairwise_rank_append (((d1 ++ d2) ++ d3) ++ d4) d5 4 a14 u14 c5
    (fun m hm => by rw [r5 m hm]; decide)
  have u15 : ∀ m ∈ (((d1 ++ d2) ++ d3) ++ d4) ++ d5, matcherRank m.match_type ≤ 5 := by
    intro m hm
    rcases List.mem_append.1 hm with hm | hm
    · exact le_trans (u14 m hm) (by decide)
    · rw [r5 m hm]
  exact pairwise_rank_append ((((d1 ++ d2) ++ d3) ++ d4) ++ d5) d6 5 a15 u15 c6
    (fun m hm => by rw [r6 m hm]; decide)

end Catalog

namespace Catalog

/-- C9: equal-score ordering of `find_matches` output.  (1) For every
score value `s`, the results of score `s` in the returned list form a
prefix, in order, of the results of score `s` in the pre-sort match list
(`build_matches`): the sort is stable, so equal-score results keep their
relative order, which is matcher-priority order and, within one matcher,
store-return order, and the truncation only drops a suffix.  (2) The
pre-sort list is ordered by matcher priority: whenever one element
precedes another there, the earlier one's matcher rank is no larger. -/
theorem C9_stable_ordering (st : Store) (q : Doc) (mr : Nat) (s : ℚ) :
    (∃ t, (build_matches st q mr).filter (fun m => decide (m.score.val = s)) =
       (find_matches st q mr).filter (fun m => decide (m.score.val = s)) ++ t) ∧
    List.Pairwise (fun a b => matcherRank a.match_type ≤ matcherRank b.match_type)
      (build_matches st q mr) := by
  refine ⟨?_, build_matches_rank_pairwise st q mr⟩
  have hpos := build_matches_score_pos st q mr
  have hfil := sortDescBy_filter (fun m => m.score) s (build_matches st q mr) hpos
  refine ⟨((sortDescBy (fun m => m.score) (build_matches st q mr)).drop mr).filter
    (fun m => decide (m.score.val = s)), ?_⟩
  rw [← hfil, find_matches]
  conv_lhs => rw [← List.take_append_drop mr
    (sortDescBy (fun m => m.score) (build_matches st q mr))]
  rw [List.filter_append]

end Catalog

namespace Catalog

theorem addStage_nil {α : Type} (mk : α → MatchResult) (gid : α → String) (cap : Option Nat)
    (acc : List MatchResult × List String) : addStage mk gid cap [] acc = acc := rfl

/-- C3 (as the code actually behaves): every matcher of `find_matches`
wraps its Store Gateway query in `try/except` and returns `[]` on any
failure — the failure is logged and swallowed, not propagated, and there
is no retry; `find_matches` on a failing store completes normally with
the empty list.  A query returning zero results likewise raises nothing:
on an empty, healthy store every matcher contributes nothing and
`find_matches` returns `[]`. -/
theorem C3_failure_swallowed (st : Store) (q : Doc) (mr : Nat) (h : st.failing = true) :
    (∀ v, find_by_barcode st v = []) ∧
    (∀ v, find_by_code_ean st v = []) ∧
    (∀ v, find_by_default_code st v = []) ∧
    (∀ r c, find_by_manufacturer_ref st r c = []) ∧
    (∀ n e, find_by_fuzzy_name st n e = []) ∧
    (∀ c e, find_by_partcode st c e = []) ∧
    find_matches st q mr = [] ∧
    (∀ q₂ mr₂, find_matches (Store.mk [] false) q₂ mr₂ = []) := by
  have hbar : ∀ v, find_by_barcode st v = [] := by
    intro v
    simp [find_by_barcode, storeFind, h]
  have hean : ∀ v, find_by_code_ean st v = [] := by
    intro v
    simp [find_by_code_ean, storeFind, h]
  have hcode : ∀ v, find_by_default_code st v = [] := by
    intro v
    simp [find_by_default_code, storeFind, h]
  have href : ∀ r c, find_by_manufacturer_ref st r c = [] := by
    intro r c
    simp [find_by_manufacturer_ref, storeFind, h]
  have hfz : ∀ n e, find_by_fuzzy_name st n e = [] := by
    intro n e
    cases n <;> simp [find_by_fuzzy_name, storeFind, h]
  have hpc : ∀ c e, find_by_partcode st c e = [] := by
    intro c e
    cases c <;> simp [find_by_partcode, storeFind, h]
  have s1 : ∀ acc, stage1 st q acc = acc := by
    intro acc
    simp [stage1, hbar, addStage_nil, ite_self]
  have s2 : ∀ acc, stage2 st q acc = acc := by
    intro acc
    simp [stage2, hean, addStage_nil, ite_self]
  have s3 : ∀ acc, stage3 st q acc = acc := by
    intro acc
    simp [stage3, hcode, addStage_nil, ite_self]
  have s4 : ∀ acc, stage4 st q acc = acc := by
    intro acc
    simp [stage4, href, addStage_nil, ite_self]
  have s5 : ∀ acc, stage5 st q mr acc = acc := by
    intro acc
    simp [stage5, hfz, addStage_nil, ite_self]
  have s6 : ∀ acc, stage6 st q mr acc = acc := by
    intro acc
    simp [stage6, hpc, addStage_nil, ite_self]
  have hbuild : build_matches st q mr = [] := by
    simp [build_matches, s1, s2, s3, s4, s5, s6]
  have hmain : find_matches st q mr = [] := by
    rw [find_matches, hbuild]
    simp [sortDescBy]
  have hempty : ∀ q₂ mr₂, find_matches (Store.mk [] false) q₂ mr₂ = [] := by
    intro q₂ mr₂
    have e1 : ∀ acc, stage1 (Store.mk [] false) q₂ acc = acc := by
      intro acc
      simp [stage1, find_by_barcode, storeFind, addStage_nil, ite_self]
    have e2 : ∀ acc, stage2 (Store.mk [] false) q₂ acc = acc := by
      intro acc
      simp [stage2, find_by_code_ean, storeFind, addStage_nil, ite_self]
    have e3 : ∀ acc, stage3 (Store.mk [] false) q₂ acc = acc := by
      intro acc
      simp [stage3, find_by_default_code, storeFind, addStage_nil, ite_self]
    have e4 : ∀ acc, stage4 (Store.mk [] false) q₂ acc = acc := by
      intro acc
      simp [stage4, find_by_manufacturer_ref, storeFind, addStage_nil, ite_self]
    have e5 : ∀ acc, stage5 (Store.mk [] false) q₂ mr₂ acc = acc := by
      intro acc
      have : ∀ n e, find_by_fuzzy_name (Store.mk [] false) n e = [] := by
        intro n e
        cases n <;> simp [find_by_fuzzy_name, storeFind, fuzzyScored, sortDescBy]
      simp [stage5, this, addStage_nil, ite_self]
    have e6 : ∀ acc, stage6 (Store.mk [] false) q₂ mr₂ acc = acc := by
      intro acc
      have : ∀ c e, find_by_partcode (Store.mk [] false) c e = [] := by
        intro c e
        cases c <;> simp [find_by_partcode, storeFind, partCodeLoop]
      simp [stage6, this, addStage_nil, ite_self]
    have : build_matches (Store.mk [] false) q₂ mr₂ = [] := by
      simp [build_matches, e1, e2, e3, e4, e5, e6]
    rw [find_matches, this]
    simp [sortDescBy]
  exact ⟨hbar, hean, hcode, href, hfz, hpc, hmain, hempty⟩

/-- A store whose driver raises on every query. -/
def stFail : Store := ⟨[[("_id", .str "b1"), ("barcode", .str "123")]], true⟩

/-- A query matching the stored barcode of `stFail`. -/
def qFail : Doc := [("barcode", .str "123"), ("name", .str "alpha beta")]

/-- C3 counterexample: the Store Gateway query raised by the barcode
matcher fails (`storeFind` returns the driver error), yet the matcher
returns the empty list and `find_matches` completes normally with `[]` —
the failure does not propagate to the caller, contradicting the claim
that it propagates unmodified. -/
theorem C3_counterexample :
    storeFind stFail (fun d => obeq (dlookup d "barcode") (some (.str "123"))) 5 =
      .error () ∧
    find_by_barcode stFail (.str "123") = [] ∧
    find_matches stFail qFail 10 = [] :=
  ⟨rfl, rfl, rfl⟩

/-- C3 witness: the amended behaviour at a concrete failing store. -/
theorem C3_witness :
    find_by_fuzzy_name stFail (.str "alpha beta") [] = [] ∧
    find_matches stFail qFail 10 = [] ∧
    find_matches (Store.mk [] false) qFail 10 = [] :=
  ⟨(C3_failure_swallowed stFail qFail 10 rfl).2.2.2.2.1 (.str "alpha beta") [],
   (C3_failure_swallowed stFail qFail 10 rfl).2.2.2.2.2.2.1,
   (C3_failure_swallowed stFail qFail 10 rfl).2.2.2.2.2.2.2 qFail 10⟩

end Catalog

namespace Catalog

theorem foldl_lookup_pres {β : Type} (g : Doc → β → Doc) (key : String) :
    ∀ (L : List β) (d : Doc), (∀ d' b, b ∈ L → dlookup (g d' b) key = dlookup d' key) →
      dlookup (L.foldl g d) key = dlookup d key := by
  intro L
  induction L with
  | nil => exact fun d _ => rfl
  | cons b t ih =>
    intro d h
    have := ih (g d b) (fun d' b' hb' => h d' b' (List.mem_cons_of_mem _ hb'))
    rw [List.foldl_cons, this, h d b (List.mem_cons_self _ _)]

theorem fixEM_lookup (key : String) (hk : key ≠ "extraction_metadata") (d : Doc) :
    dlookup (fixExtractionMetadata d) key = dlookup d key := by
  unfold fixExtractionMetadata
  by_cases hm : missingOrNull d "extraction_metadata" = true
  · simp only [if_pos hm]
    exact dlookup_dset_ne _ _ _ _ (Ne.symm hk)
  · simp only [if_neg hm]
    rcases dlookup d "extraction_metadata" with _ | v
    · rfl
    · rcases v with _ | b | s | q | vs | kvs
      · rfl
      · rfl
      · rfl
      · rfl
      · rfl
      · exact dlookup_dset_ne _ _ _ _ (Ne.symm hk)

theorem dlookup_serialize_id (p : Doc) :
    dlookup (serialize_product p) "_id" =
      (dlookup p "_id").map (fun v => Value.str (pyValueStr v)) := by
  by_cases hp : p.isEmpty = true
  · cases p with
    | nil => simp [serialize_product, dlookup]
    | cons a t => simp [List.isEmpty] at hp
  · have htype : ∀ d : Doc, dlookup (if missingOrNull d "type" then
        dset d "type" (.str "product") else d) "_id" = dlookup d "_id" := by
      intro d
      split
      · exact dlookup_dset_ne _ _ _ _ (by decide)
      · rfl
    have hbool : ∀ (d' : Doc) (b : String × Bool), b ∈ boolean_defaults →
        dlookup (if missingOrNull d' b.1 then dset d' b.1 (.bool b.2) else d') "_id" =
        dlookup d' "_id" := by
      intro d' b hb
      split
      · refine dlookup_dset_ne _ _ _ _ (fun h => ?_)
        have hmem : ("_id" : String) ∈ boolean_defaults.map Prod.fst := by
          rw [← h]
          exact List.mem_map_of_mem Prod.fst hb
        exact absurd hmem (by decide)
      · rfl
    have hlist : ∀ (d' : Doc) (b : String × Value), b ∈ list_fields_defaults →
        dlookup (if missingOrNull d' b.1 then dset d' b.1 b.2 else d') "_id" =
        dlookup d' "_id" := by
      intro d' b hb
      split
      · refine dlookup_dset_ne _ _ _ _ (fun h => ?_)
        have hmem : ("_id" : String) ∈ list_fields_defaults.map Prod.fst := by
          rw [← h]
          exact List.mem_map_of_mem Prod.fst hb
        exact absurd hmem (by decide)
      · rfl
    have hnull : ∀ (d' : Doc) (b : String), b ∈ null_string_fields →
        dlookup (if obeq (dlookup d' b) (some (.str "null")) then dset d' b .null else d') "_id" =
        dlookup d' "_id" := by
      intro d' b hb
      split
      · refine dlookup_dset_ne _ _ _ _ (fun h => ?_)
        rw [h] at hb
        exact absurd hb (by decide)
      · rfl
    simp only [serialize_product, if_neg hp]
    rw [htype _, foldl_lookup_pres _ "_id" boolean_defaults _ hbool,
      fixEM_lookup "_id" (by decide) _,
      foldl_lookup_pres _ "_id" list_fields_defaults _ hlist,
      foldl_lookup_pres _ "_id" null_string_fields _ hnull]
    rcases hid : dlookup p "_id" with _ | v
    · simp [hid]
    · simp [hid, dlookup_dset_self]

theorem docIdStr_serialize (p : Doc) : docIdStr (serialize_product p) = docIdStr p := by
  unfold docIdStr
  rw [dlookup_serialize_id]
  rcases dlookup p "_id" with _ | v
  · rfl
  · rfl

end Catalog

namespace Catalog

/-- C7: for a query with a truthy barcode and a stored record `d` that is
the unique document whose `barcode` equals it (the spec assumes the store
enforces uniqueness of identity fields), with at least one result slot,
`find_matches` returns `d` as a candidate with score 1.00 and match type
`exact_barcode` (it is in fact the first, highest-priority result). -/
theorem C7_exact_barcode (st : Store) (q : Doc) (mr : Nat) (d : Doc)
    (hfail : st.failing = false)
    (hbar : pyTruthy (qget q "barcode") = true)
    (huniq : st.docs.filter
      (fun d' => obeq (dlookup d' "barcode") (some (qget q "barcode"))) = [d])
    (hmr : 1 ≤ mr) :
    ∃ m ∈ find_matches st q mr, m.product_id = docIdStr d ∧ m.score.val = 1 ∧
      m.match_type = "exact_barcode" := by
  have hfind : find_by_barcode st (qget q "barcode") = [serialize_product d] := by
    simp [find_by_barcode, storeFind, hfail, huniq]
  have h1 : stage1 st q ([], []) =
      ([mkBarcode (qget q "barcode") (serialize_product d)],
       [docIdStr (serialize_product d)]) := by
    simp [stage1, hbar, hfind, addStage]
  obtain ⟨d2, s2, h2, _⟩ := stage2_spec st q (stage1 st q ([], []))
  obtain ⟨d3, s3, h3, _⟩ := stage3_spec st q (stage2 st q (stage1 st q ([], [])))
  obtain ⟨d4, s4, h4, _⟩ := stage4_spec st q
    (stage3 st q (stage2 st q (stage1 st q ([], []))))
  obtain ⟨d5, s5, h5, _⟩ := stage5_spec st q mr
    (stage4 st q (stage3 st q (stage2 st q (stage1 st q ([], [])))))
  obtain ⟨d6, s6, h6, _⟩ := stage6_spec st q mr
    (stage5 st q mr (stage4 st q (stage3 st q (stage2 st q (stage1 st q ([], []))))))
  have e2 : (stage2 st q (stage1 st q ([], []))).1 =
      [mkBarcode (qget q "barcode") (serialize_product d)] ++ d2 := by
    rw [h2, h1]
  have e3 : (stage3 st q (stage2 st q (stage1 st q ([], [])))).1 =
      ([mkBarcode (qget q "barcode") (serialize_product d)] ++ d2) ++ d3 := by
    rw [h3, e2]
  have e4 : (stage4 st q (stage3 st q (stage2 st q (stage1 st q ([], []))))).1 =
      (([mkBarcode (qget q "barcode") (serialize_product d)] ++ d2) ++ d3) ++ d4 := by
    rw [h4, e3]
  have e5 : (stage5 st q mr (stage4 st q (stage3 st q (stage2 st q
      (stage1 st q ([], [])))))).1 =
      ((([mkBarcode (qget q "barcode") (serialize_product d)] ++ d2) ++ d3) ++ d4) ++ d5 := by
    rw [h5, e4]
  have e6 : (stage6 st q mr (stage5 st q mr (stage4 st q (stage3 st q (stage2 st q
      (stage1 st q ([], []))))))).1 =
      (((([mkBarcode (qget q "barcode") (serialize_product d)] ++ d2) ++ d3) ++ d4) ++ d5)
        ++ d6 := by
    rw [h6, e5]
  have hbuild : build_matches st q mr =
      mkBarcode (qget q "barcode") (serialize_product d) ::
        (d2 ++ (d3 ++ (d4 ++ (d5 ++ d6)))) := by
    have hb0 : build_matches st q mr = (stage6 st q mr (stage5 st q mr (stage4 st q
      (stage3 st q (stage2 st q (stage1 st q ([], []))))))).1 := rfl
    rw [hb0, e6]
    simp [List.append_assoc]
  have hble : ∀ y ∈ ([] : List MatchResult) ++
      mkBarcode (qget q "barcode") (serialize_product d) ::
        (d2 ++ (d3 ++ (d4 ++ (d5 ++ d6)))),
      Frac.blt ⟨1, 1⟩ ((fun m => m.score) y) = false := by
    intro y hy
    refine build_matches_le_one st q mr y ?_
    rw [hbuild]
    simpa using hy
  obtain ⟨t, ht⟩ := sortDescBy_max_block (fun m => m.score) ⟨1, 1⟩ []
    (mkBarcode (qget q "barcode") (serialize_product d))
    (d2 ++ (d3 ++ (d4 ++ (d5 ++ d6)))) (by simp) rfl hble
  simp only [List.nil_append] at ht
  have hmem : mkBarcode (qget q "barcode") (serialize_product d) ∈ find_matches st q mr := by
    rw [find_matches, hbuild, ht]
    exact mem_take_append _ [] t mr (by simpa using hmr)
  refine ⟨mkBarcode (qget q "barcode") (serialize_product d), hmem, ?_, ?_, rfl⟩
  · rw [show (mkBarcode (qget q "barcode") (serialize_product d)).product_id =
      docIdStr (serialize_product d) from rfl, docIdStr_serialize]
  · norm_num [mkBarcode, mkBase, MATCH_SCORES, Frac.val]

/-- Stored document with barcode `"123"`. -/
def dBar : Doc := [("_id", .str "b1"), ("name", .str "prod"), ("barcode", .str "123")]

/-- Healthy store holding `dBar` only. -/
def stBar : Store := ⟨[dBar], false⟩

/-- Query carrying barcode `"123"`. -/
def qBar : Doc := [("barcode", .str "123"), ("name", .str "alpha beta")]

/-- C7 witness: the unique stored record with the query's barcode appears
in the result list with score 1 and type `exact_barcode`. -/
theorem C7_witness :
    ∃ m ∈ find_matches stBar qBar 10, m.product_id = docIdStr dBar ∧ m.score.val = 1 ∧
      m.match_type = "exact_barcode" :=
  C7_exact_barcode stBar qBar 10 dBar rfl (by decide) rfl (by decide)

end Catalog

namespace Catalog

/-- C10: for a query whose EAN code is truthy and differs from its
barcode, a stored record `d` that is the unique document matching the
EAN `$or` filter — here through its `barcode` field equalling the query's
EAN — and whose id was not already claimed by the barcode stage, is
returned with score 1.00 and match type `exact_ean`, provided the barcode
stage produced at most one (scored-1.0) result and at least two result
slots exist. -/
theorem C10_exact_ean (st : Store) (q : Doc) (mr : Nat) (d : Doc)
    (hfail : st.failing = false)
    (hean : pyTruthy (qCodeEan q) = true)
    (hne : (qCodeEan q == qget q "barcode") = false)
    (hfilter : st.docs.filter (eanFilter (qCodeEan q)) = [d])
    ( _hbarfield : obeq (dlookup d "barcode") (some (qCodeEan q)) = true)
    (hlen1 : (stage1 st q ([], [])).1.length ≤ 1)
    (hseen : docIdStr d ∉ (stage1 st q ([], [])).2)
    (hmr : 2 ≤ mr) :
    ∃ m ∈ find_matches st q mr, m.product_id = docIdStr d ∧ m.score.val = 1 ∧
      m.match_type = "exact_ean" := by
  have hfind : find_by_code_ean st (qCodeEan q) = [serialize_product d] := by
    simp [find_by_code_ean, storeFind, hfail, hfilter]
  obtain ⟨d1, s1, h1s, p1⟩ := stage1_spec st q ([], [])
  have h2 : stage2 st q (stage1 st q ([], [])) =
      ((stage1 st q ([], [])).1 ++ [mkEan (qCodeEan q) (serialize_product d)],
       (stage1 st q ([], [])).2 ++ [docIdStr (serialize_product d)]) := by
    have hnotin : ¬ (docIdStr (serialize_product d) ∈ (stage1 st q ([], [])).2) := by
      rw [docIdStr_serialize]
      exact hseen
    simp only [stage2, hean, hne]
    rw [if_pos (by simp)]
    rw [hfind]
    have : stage1 st q ([], []) = ((stage1 st q ([], [])).1, (stage1 st q ([], [])).2) := rfl
    rw [this]
    simp [addStage, hnotin]
  obtain ⟨d3, s3, h3, _⟩ := stage3_spec st q (stage2 st q (stage1 st q ([], [])))
  obtain ⟨d4, s4, h4, _⟩ := stage4_spec st q
    (stage3 st q (stage2 st q (stage1 st q ([], []))))
  obtain ⟨d5, s5, h5, _⟩ := stage5_spec st q mr
    (stage4 st q (stage3 st q (stage2 st q (stage1 st q ([], [])))))
  obtain ⟨d6, s6, h6, _⟩ := stage6_spec st q mr
    (stage5 st q mr (stage4 st q (stage3 st q (stage2 st q (stage1 st q ([], []))))))
  have e3 : (stage3 st q (stage2 st q (stage1 st q ([], [])))).1 =
      ((stage1 st q ([], [])).1 ++ [mkEan (qCodeEan q) (serialize_product d)]) ++ d3 := by
    rw [h3, h2]
  have e4 : (stage4 st q (stage3 st q (stage2 st q (stage1 st q ([], []))))).1 =
      (((stage1 st q ([], [])).1 ++ [mkEan (qCodeEan q) (serialize_product d)]) ++ d3)
        ++ d4 := by
    rw [h4, e3]
  have e5 : (stage5 st q mr (stage4 st q (stage3 st q (stage2 st q
      (stage1 st q ([], [])))))).1 =
      ((((stage1 st q ([], [])).1 ++ [mkEan (qCodeEan q) (serialize_product d)]) ++ d3)
        ++ d4) ++ d5 := by
    rw [h5, e4]
  have e6 : (stage6 st q mr (stage5 st q mr (stage4 st q (stage3 st q (stage2 st q
      (stage1 st q ([], []))))))).1 =
      (((((stage1 st q ([], [])).1 ++ [mkEan (qCodeEan q) (serialize_product d)]) ++ d3)
        ++ d4) ++ d5) ++ d6 := by
    rw [h6, e5]
  have hbuild : build_matches st q mr =
      (stage1 st q ([], [])).1 ++ (mkEan (qCodeEan q) (serialize_product d) ::
        (d3 ++ (d4 ++ (d5 ++ d6)))) := by
    have hb0 : build_matches st q mr = (stage6 st q mr (stage5 st q mr (stage4 st q
      (stage3 st q (stage2 st q (stage1 st q ([], []))))))).1 := rfl
    rw [hb0, e6]
    simp [List.append_assoc]
  have hms1 : ∀ y ∈ (stage1 st q ([], [])).1, (fun m => m.score) y = (⟨1, 1⟩ : Frac) := by
    intro y hy
    rw [h1s] at hy
    simp only [List.nil_append] at hy
    exact (p1 y hy).1
  have hble : ∀ y ∈ (stage1 st q ([], [])).1 ++
      mkEan (qCodeEan q) (serialize_product d) :: (d3 ++ (d4 ++ (d5 ++ d6))),
      Frac.blt ⟨1, 1⟩ ((fun m => m.score) y) = false := by
    intro y hy
    refine build_matches_le_one st q mr y ?_
    rw [hbuild]
    exact hy
  obtain ⟨t, ht⟩ := sortDescBy_max_block (fun m => m.score) ⟨1, 1⟩
    ((stage1 st q ([], [])).1) (mkEan (qCodeEan q) (serialize_product d))
    (d3 ++ (d4 ++ (d5 ++ d6))) hms1 rfl hble
  have hmem : mkEan (qCodeEan q) (serialize_product d) ∈ find_matches st q mr := by
    rw [find_matches, hbuild, ht]
    exact mem_take_append _ _ t mr (lt_of_le_of_lt hlen1 hmr)
  refine ⟨mkEan (qCodeEan q) (serialize_product d), hmem, ?_, ?_, rfl⟩
  · rw [show (mkEan (qCodeEan q) (serialize_product d)).product_id =
      docIdStr (serialize_product d) from rfl, docIdStr_serialize]
  · norm_num [mkEan, mkBase, MATCH_SCORES, Frac.val]

/-- Stored document whose barcode field carries the value queried as EAN. -/
def dEan : Doc := [("_id", .str "e1"), ("barcode", .str "222")]

/-- Healthy store with a barcode match and an EAN-via-barcode match. -/
def stEan : Store := ⟨[dBar, dEan], false⟩

/-- Query with barcode `"123"` and EAN `"222"`. -/
def qEan : Doc := [("barcode", .str "123"), ("Code_EAN", .str "222")]

/-- C10 witness: `dEan` matches the query's EAN through its barcode field
and is returned with score 1 and type `exact_ean`. -/
theorem C10_witness :
    ∃ m ∈ find_matches stEan qEan 10, m.product_id = docIdStr dEan ∧ m.score.val = 1 ∧
      m.match_type = "exact_ean" :=
  C10_exact_ean stEan qEan 10 dEan rfl (by decide) (by decide) rfl (by decide)
    (by decide) (by decide) (by decide)

end Catalog

namespace Catalog

theorem ratioOf_dpos (s1 s2 : String) : 0 < (ratioOf s1 s2).d := by
  simp only [ratioOf]
  split
  · decide
  · next h =>
    simp only [beq_iff_eq] at h
    exact Nat.pos_of_ne_zero h

theorem calc_sim_dpos (v1 v2 : Value) : 0 < (calculate_similarity v1 v2).d := by
  unfold calculate_similarity
  split
  · decide
  · exact ratioOf_dpos _ _

theorem fuzzyScored_mem (s : String) (excl : List String) (minSim : Frac) :
    ∀ (prods : List Doc) (d : Doc) (sim : Frac), (d, sim) ∈ fuzzyScored s excl minSim prods →
      sim = calculate_similarity (.str s) (dgetD d "name" (.str "")) ∧
      Frac.ble minSim sim = true ∧ d ∈ prods := by
  intro prods
  induction prods with
  | nil => intro d sim h; cases h
  | cons p rest ih =>
    intro d sim h
    simp only [fuzzyScored] at h
    by_cases hex : docIdStr p ∈ excl
    · rw [if_pos hex] at h
      obtain ⟨h1, h2, h3⟩ := ih d sim h
      exact ⟨h1, h2, List.mem_cons_of_mem _ h3⟩
    · rw [if_neg hex] at h
      by_cases hms : Frac.ble minSim
          (calculate_similarity (.str s) (dgetD p "name" (.str ""))) = true
      · rw [if_pos hms] at h
        rcases List.mem_cons.1 h with heq | h'
        · have hd : d = p := congrArg Prod.fst heq
          have hs : sim = calculate_similarity (.str s) (dgetD p "name" (.str "")) :=
            congrArg Prod.snd heq
          subst hd
          exact ⟨hs, by rw [hs]; exact hms, List.mem_cons_self _ _⟩
        · obtain ⟨h1, h2, h3⟩ := ih d sim h'
          exact ⟨h1, h2, List.mem_cons_of_mem _ h3⟩
      · rw [if_neg hms] at h
        obtain ⟨h1, h2, h3⟩ := ih d sim h
        exact ⟨h1, h2, List.mem_cons_of_mem _ h3⟩

theorem find_by_fuzzy_mem (st : Store) (n : Value) (excl : List String) (pr : Doc × Frac)
    (hp : pr ∈ find_by_fuzzy_name st n excl) :
    Frac.ble ⟨7, 10⟩ pr.2 = true ∧ 0 < pr.2.d := by
  rcases n with _ | b | s | qn | vs | kvs
  · cases hp
  · cases hp
  · simp only [find_by_fuzzy_name] at hp
    by_cases hw : (sigWords (normStr s)).isEmpty = true
    · rw [if_pos hw] at hp
      cases hp
    · rw [if_neg hw] at hp
      rcases hsf : storeFind st (nameRegexMatch (sigWords (normStr s))) 50 with _ | prods
      · rw [hsf] at hp
        cases hp
      · rw [hsf] at hp
        obtain ⟨pr', hpr', hmap⟩ := List.mem_map.1 hp
        have hpr'' : pr' ∈ fuzzyScored s excl ⟨7, 10⟩ prods :=
          (mem_sortDescBy _ _ _).1 (List.mem_of_mem_take hpr')
        obtain ⟨h1, h2, _⟩ := fuzzyScored_mem s excl ⟨7, 10⟩ prods pr'.1 pr'.2
          (by simpa using hpr'')
        have hsnd : pr.2 = pr'.2 := by rw [← hmap]
        constructor
        · rw [hsnd]
          exact h2
        · rw [hsnd, h1]
          exact calc_sim_dpos _ _
  · cases hp
  · cases hp
  · cases hp

/-- C6: fuzzy-name scoring buckets.  Every result tagged
`fuzzy_name_high` has score 0.75 and comes from a fuzzy candidate of
similarity ≥ 0.90; every result tagged `fuzzy_name_medium` has score
0.60 and comes from a candidate with similarity in [0.70, 0.90); every
pair produced by the fuzzy matcher carries the similarity computed by
`_calculate_similarity` against the query name and reaches the 0.70
threshold (candidates below 0.70 are excluded from the candidate list,
hence from the results). -/
theorem C6_fuzzy_buckets (st : Store) (q : Doc) (mr : Nat) :
    (∀ m ∈ find_matches st q mr,
      (m.match_type = "fuzzy_name_high" → m.score.val = 3 / 4 ∧
        ∃ excl pr, pr ∈ find_by_fuzzy_name st (dgetD q "name" (.str "")) excl ∧
          m = mkFuzzy pr ∧ Frac.ble ⟨9, 10⟩ pr.2 = true ∧ (9 : ℚ) / 10 ≤ pr.2.val) ∧
      (m.match_type = "fuzzy_name_medium" → m.score.val = 3 / 5 ∧
        ∃ excl pr, pr ∈ find_by_fuzzy_name st (dgetD q "name" (.str "")) excl ∧
          m = mkFuzzy pr ∧ Frac.ble ⟨9, 10⟩ pr.2 = false ∧ pr.2.val < (9 : ℚ) / 10)) ∧
    (∀ (n : Value) (excl : List String) (pr : Doc × Frac),
      pr ∈ find_by_fuzzy_name st n excl →
        Frac.ble ⟨7, 10⟩ pr.2 = true ∧ (7 : ℚ) / 10 ≤ pr.2.val) ∧
    (∀ (s : String) (excl : List String) (minSim : Frac) (prods : List Doc)
      (d : Doc) (sim : Frac), (d, sim) ∈ fuzzyScored s excl minSim prods →
        sim = calculate_similarity (.str s) (dgetD d "name" (.str "")) ∧
        Frac.ble minSim sim = true) := by
  have hthr : ∀ (n : Value) (excl : List String) (pr : Doc × Frac),
      pr ∈ find_by_fuzzy_name st n excl →
        Frac.ble ⟨7, 10⟩ pr.2 = true ∧ (7 : ℚ) / 10 ≤ pr.2.val := by
    intro n excl pr hp
    obtain ⟨h7, hd⟩ := find_by_fuzzy_mem st n excl pr hp
    refine ⟨h7, ?_⟩
    have := (Frac.ble_val ⟨7, 10⟩ pr.2 (by decide) hd).1 h7
    rw [show (Frac.mk 7 10).val = (7 : ℚ) / 10 from by norm_num [Frac.val]] at this
    exact this
  refine ⟨?_, hthr, fun s excl minSim prods d sim h =>
    ⟨(fuzzyScored_mem s excl minSim prods d sim h).1,
     (fuzzyScored_mem s excl minSim prods d sim h).2.1⟩⟩
  intro m hm
  have hm' : m ∈ (sortDescBy (fun m => m.score) (build_matches st q mr)).take mr := hm
  have hmem : m ∈ build_matches st q mr :=
    (sortDescBy_perm (fun m => m.score) (build_matches st q mr)).mem_iff.1
      (List.mem_of_mem_take hm')
  obtain ⟨d1, d2, d3, d4, d5, d6, heq, p1, p2, p3, p4, p5, p6⟩ := build_matches_decomp st q mr
  rw [heq] at hmem
  simp only [List.mem_append] at hmem
  constructor
  · intro hty
    rcases hmem with ((((hm1 | hm1) | hm1) | hm1) | hm1) | hm1
    · exact absurd (((p1 m hm1).2).symm.trans hty) (by decide)
    · exact absurd (((p2 m hm1).2).symm.trans hty) (by decide)
    · exact absurd (((p3 m hm1).2).symm.trans hty) (by decide)
    · exact absurd (((p4 m hm1).1).symm.trans hty) (by decide)
    · obtain ⟨excl, pr, hpr, rfl⟩ := p5 m hm1
      by_cases hb : Frac.ble ⟨9, 10⟩ pr.2 = true
      · have hsc : (mkFuzzy pr).score = MATCH_SCORES "fuzzy_name_high" := by
          unfold mkFuzzy
          rw [if_pos hb]
          rfl
        have hval : (9 : ℚ) / 10 ≤ pr.2.val := by
          have hd := (find_by_fuzzy_mem st _ excl pr hpr).2
          have := (Frac.ble_val ⟨9, 10⟩ pr.2 (by decide) hd).1 hb
          rw [show (Frac.mk 9 10).val = (9 : ℚ) / 10 from by norm_num [Frac.val]] at this
          exact this
        refine ⟨?_, excl, pr, hpr, rfl, hb, hval⟩
        rw [hsc, show MATCH_SCORES "fuzzy_name_high" = ⟨75, 100⟩ from by decide]
        norm_num [Frac.val]
      · have : (mkFuzzy pr).match_type = "fuzzy_name_medium" := by
          unfold mkFuzzy
          rw [if_neg hb]
          rfl
        exact absurd (this.symm.trans hty) (by decide)
    · exact absurd (((p6 m hm1).2).symm.trans hty) (by decide)
  · intro hty
    rcases hmem with ((((hm1 | hm1) | hm1) | hm1) | hm1) | hm1
    · exact absurd (((p1 m hm1).2).symm.trans hty) (by decide)
    · exact absurd (((p2 m hm1).2).symm.trans hty) (by decide)
    · exact absurd (((p3 m hm1).2).symm.trans hty) (by decide)
    · exact absurd (((p4 m hm1).1).symm.trans hty) (by decide)
    · obtain ⟨excl, pr, hpr, rfl⟩ := p5 m hm1
      by_cases hb : Frac.ble ⟨9, 10⟩ pr.2 = true
      · have : (mkFuzzy pr).match_type = "fuzzy_name_high" := by
          unfold mkFuzzy
          rw [if_pos hb]
          rfl
        exact absurd (this.symm.trans hty) (by decide)
      · have hsc : (mkFuzzy pr).score = MATCH_SCORES "fuzzy_name_medium" := by
          unfold mkFuzzy
          rw [if_neg hb]
          rfl
        have hb' : Frac.ble ⟨9, 10⟩ pr.2 = false := by
          revert hb
          cases Frac.ble ⟨9, 10⟩ pr.2 <;> simp
        have hval : pr.2.val < (9 : ℚ) / 10 := by
          have hd := (find_by_fuzzy_mem st _ excl pr hpr).2
          have hnot : ¬ ((⟨9, 10⟩ : Frac).val ≤ pr.2.val) := by
            intro hc
            rw [← Frac.ble_val ⟨9, 10⟩ pr.2 (by decide) hd] at hc
            rw [hb'] at hc
            cases hc
          rw [show (Frac.mk 9 10).val = (9 : ℚ) / 10 from by norm_num [Frac.val]] at hnot
          exact lt_of_not_le hnot
        refine ⟨?_, excl, pr, hpr, rfl, hb', hval⟩
        rw [hsc, show MATCH_SCORES "fuzzy_name_medium" = ⟨60, 100⟩ from by decide]
        norm_num [Frac.val]
    · exact absurd (((p6 m hm1).2).symm.trans hty) (by decide)

end Catalog
